import Mathlib

/-!
# Verification of the rsl-turn-sequencing-simulator core

Shallow embedding of the tick-scheduling engine of
`rsl_turn_sequencing` (files `effects.py`, `models.py`, `event_sink.py`,
`engine.py`) and proofs about the claims of its specification.

Modelling conventions:
* Python `float` values (speed, turn meter, magnitudes, hp) are embedded as `ℚ`.
  The claims settled here are order- and control-flow-level properties (comparisons,
  maxima, resets to zero, exact payload values) that hold in any ordered field;
  no claim below depends on rounding of IEEE floats.
* Python `int` is embedded as `Int`; the event sink's tick/seq counters, which
  start at 0 and only ever increment, are embedded as `Nat`.
* Python dicts keyed by strings (hit maps, qualifying-expiration counts) are
  embedded as association lists with unique keys; `dict.get(k, d)` is
  `lookupD`, `d[k] = v` is `setKey`.
* In-place mutation of the caller-owned actor list becomes explicit state
  passing: functions return the updated list, with actors addressed by index.
* Fallible code (the event sink's `emit` raising before a tick is opened, the
  resolver's `ValueError` on malformed proc requests) returns `Option`.

The source snapshot's `models.py`, `events.py` and `effects.py` are older than
`engine.py`: `engine.py` constructs `EffectInstance(duration=..., applied_turn=...)`,
emits `EventType.MASTERY_PROC_REJECTED` and builds `EffectKind.HEX`, none of
which appear in those three files' copies.  The embedding follows `engine.py`
(and the spec, which lists all three) as noted at each definition.
-/

namespace RSL

/-! ## effects.py -/

/-- `EffectKind` from `effects.py`.  The `HEX` member is constructed by
`engine.py` (effect placements and the Mithrala A2 block); it is absent from
the `effects.py` copy in the snapshot, which predates `engine.py`. -/
inductive EffectKind where
  | DECREASE_SPD
  | POISON
  | HEX
deriving DecidableEq, Repr

/-- `Effect` from `effects.py`: legacy duration model. -/
structure Effect where
  kind : EffectKind
  turns_remaining : Int
  magnitude : ℚ
deriving DecidableEq, Repr

/-- `speed_multiplier_from_effects` from `effects.py`: product of
`(1 - clamp(magnitude, 0, 1))` over DECREASE_SPD effects with
`turns_remaining > 0`. -/
def speed_multiplier_from_effects (effects : List Effect) : ℚ :=
  effects.foldl
    (fun mult e =>
      if e.turns_remaining ≤ 0 then mult
      else if e.kind = .DECREASE_SPD then mult * (1 - max 0 (min 1 e.magnitude))
      else mult)
    1

/-- `poison_damage_from_effects` from `effects.py`: total POISON damage to
apply at TURN_START. -/
def poison_damage_from_effects (effects : List Effect) : ℚ :=
  effects.foldl
    (fun dmg e =>
      if e.turns_remaining ≤ 0 then dmg
      else if e.kind = .POISON then dmg + e.magnitude
      else dmg)
    0

/-- `apply_turn_start_effects` from `effects.py`.
Returns `(remaining_effects, expired_effects, poison_damage)`.  POISON
triggers (damage) and decrements at TURN_START; other kinds pass through. -/
def apply_turn_start_effects : List Effect → List Effect × List Effect × ℚ
  | [] => ([], [], 0)
  | e :: rest =>
    let r := apply_turn_start_effects rest
    if e.turns_remaining ≤ 0 then (r.1, e :: r.2.1, r.2.2)
    else if e.kind = .POISON then
      let newN := e.turns_remaining - 1
      if newN ≤ 0 then
        (r.1, ⟨e.kind, 0, e.magnitude⟩ :: r.2.1, e.magnitude + r.2.2)
      else
        (⟨e.kind, newN, e.magnitude⟩ :: r.1, r.2.1, e.magnitude + r.2.2)
    else (e :: r.1, r.2.1, r.2.2)

/-- `decrement_turn_end` from `effects.py`.
Returns `(remaining_effects, expired_effects)`: decrements everything except
POISON (handled at TURN_START) and partitions into still-active vs expired. -/
def decrement_turn_end : List Effect → List Effect × List Effect
  | [] => ([], [])
  | e :: rest =>
    let r := decrement_turn_end rest
    if e.turns_remaining ≤ 0 then (r.1, e :: r.2)
    else if e.kind = .POISON then (e :: r.1, r.2)
    else
      let newN := e.turns_remaining - 1
      if newN ≤ 0 then (r.1, ⟨e.kind, 0, e.magnitude⟩ :: r.2)
      else (⟨e.kind, newN, e.magnitude⟩ :: r.1, r.2)

/-! ## models.py -/

/-- `EffectInstance` from `models.py`.  The `duration` and `applied_turn`
fields are listed in the spec's data model and are read/constructed by
`engine.py` (`_decrement_active_effect_durations_turn_end`) and by every test
that builds instances; the `models.py` copy in the snapshot predates them
(engine reads them via `getattr(fx, "duration", 0)` / `getattr(fx,
"applied_turn", 0)`, defaulting to 0). -/
structure EffectInstance where
  instance_id : String
  effect_id : String
  effect_kind : String
  placed_by : String
  duration : Int := 0
  applied_turn : Int := 0
deriving DecidableEq, Repr

/-- `Actor` from `models.py`, restricted to the fields the engine core reads.
`current_turn_counter` embeds the `_current_turn_counter` attribute that
`step_tick` stamps onto every actor (default 0).  Fields consumed only by the
excluded adapters (`faction`, `blessings`, `_a1_hits`) are omitted. -/
structure Actor where
  name : String
  speed : ℚ
  shield : Int := 0
  shield_max : Option Int := none
  is_boss : Bool := false
  skill_sequence : List String := []
  skill_sequence_cursor : Int := 0
  max_hp : ℚ := 0
  hp : ℚ := 0
  speed_multiplier : ℚ := 1
  turn_meter : ℚ := 0
  extra_turns : Int := 0
  effects : List Effect := []
  active_effects : List EffectInstance := []
  current_turn_counter : Int := 0
deriving DecidableEq, Repr

instance : Inhabited Actor := ⟨{ name := "", speed := 0 }⟩

/-! ## events.py / event_sink.py -/

/-- `EventType` from `events.py`.  `MASTERY_PROC_REJECTED` is listed in the
spec's event vocabulary and emitted by `engine.py`
(`_resolve_guarded_mastery_procs_for_qualifying_expirations`); the `events.py`
copy in the snapshot predates it. -/
inductive EType where
  | TICK_START
  | FILL_COMPLETE
  | WINNER_SELECTED
  | TURN_START
  | RESET_APPLIED
  | TURN_END
  | EFFECT_TRIGGERED
  | EFFECT_APPLIED
  | EFFECT_DURATION_SET
  | EFFECT_DURATION_CHANGED
  | EFFECT_EXPIRED
  | MASTERY_PROC
  | SKILL_CONSUMED
  | MASTERY_PROC_REJECTED
deriving DecidableEq, Repr

/-- `Event` from `events.py`, restricted to the orderable core `(tick, seq,
type, actor)`.  The open `data` payload is not needed by the claims settled
against the sink; the structured payloads of the mastery-proc events are
modelled separately (`MasteryEvent`). -/
structure SEvent where
  tick : Nat
  seq : Nat
  etype : EType
  actor : Option String := none
deriving DecidableEq, Repr

/-- `InMemoryEventSink` from `event_sink.py`, together with the run-scoped
attributes `engine.py` stamps onto the sink object: `turn_counter`
(turn-bookmark counter, `step_tick`) and `_qualifying_expiration_counts`
(`_record_qualifying_expiration`). -/
structure Sink where
  events : List SEvent := []
  tick : Nat := 0
  seq : Nat := 0
  turnCounter : Int := 0
  qualCounts : List ((String × Int) × Int) := []
deriving DecidableEq, Repr

/-- The freshly constructed sink (`InMemoryEventSink()`). -/
def Sink.init : Sink := {}

/-- `InMemoryEventSink.start_tick`: tick counter +1, seq reset to 0. -/
def Sink.startTick (s : Sink) : Sink :=
  { s with tick := s.tick + 1, seq := 0 }

/-- The body of `InMemoryEventSink.emit` after its guard: seq +1, append the
event stamped with the current `(tick, seq)`. -/
def Sink.emitRaw (s : Sink) (t : EType) (actor : Option String := none) : Sink :=
  { s with
    seq := s.seq + 1
    events := s.events ++ [{ tick := s.tick, seq := s.seq + 1, etype := t, actor := actor }] }

/-- `InMemoryEventSink.emit` from `event_sink.py`: raises (here `none`) when
no tick has been opened (`_tick <= 0`). -/
def Sink.emit (s : Sink) (t : EType) (actor : Option String := none) : Option Sink :=
  if s.tick = 0 then none else some (s.emitRaw t actor)

/-! ## List / dict helpers (Python built-ins used by engine.py) -/

/-- Python's `enumerate`: pair each element with its 0-based index. -/
def pyEnum : List α → List (Nat × α)
  | [] => []
  | x :: xs => (0, x) :: (pyEnum xs).map fun ia => (ia.1 + 1, ia.2)

/-- Replace the element at index `i` by `f` of it (in-place mutation of one
list slot in the Python source). Out-of-range indices leave the list alone. -/
def updateAt (i : Nat) (f : α → α) : List α → List α
  | [] => []
  | a :: rest =>
    match i with
    | 0 => f a :: rest
    | n + 1 => a :: updateAt n f rest

/-- Python `dict.get(k, d)` over an association list with unique keys. -/
def lookupD (l : List (String × Int)) (k : String) (d : Int) : Int :=
  match l.find? (fun kv => kv.1 == k) with
  | some kv => kv.2
  | none => d

/-- Python `m[k] = v` over an association list: replace the first binding of
`k`, or append a new one. -/
def setKey (k : String) (v : Int) : List (String × Int) → List (String × Int)
  | [] => [(k, v)]
  | kv :: rest => if kv.1 == k then (k, v) :: rest else kv :: setKey k v rest

/-- Python `counts[key] = counts.get(key, 0) + 1` over the qualifying-
expiration counter map. -/
def bumpCount (k : String × Int) : List ((String × Int) × Int) → List ((String × Int) × Int)
  | [] => [(k, 1)]
  | kv :: rest => if kv.1 = k then (k, kv.2 + 1) :: rest else kv :: bumpCount k rest

/-- Python `dict.get(key, 0)` over the qualifying-expiration counter map. -/
def countsGet (l : List ((String × Int) × Int)) (k : String × Int) : Int :=
  match l.find? (fun kv => kv.1 = k) with
  | some kv => kv.2
  | none => 0

/-- Python `set.add` over a key set modelled as a duplicate-free list. -/
def insertKey (k : String × Int) (l : List (String × Int)) : List (String × Int) :=
  if k ∈ l then l else l ++ [k]

/-! ## engine.py: constants and selection -/

/-- `TM_GATE` from `engine.py`. -/
def TM_GATE : ℚ := 1430

/-- `EPS` from `engine.py` (`1e-9`). -/
def EPS : ℚ := 1 / 1000000000

/-- The eligibility test of `step_tick`: `turn_meter + EPS >= TM_GATE`. -/
def eligibleB (a : Actor) : Bool := TM_GATE ≤ a.turn_meter + EPS

/-- The sort key of `step_tick`'s winner selection:
`(turn_meter, speed, -index)`, compared lexicographically as Python compares
tuples. -/
def selKey (ia : Nat × Actor) : ℚ × ℚ × Int :=
  (ia.2.turn_meter, ia.2.speed, -(ia.1 : Int))

/-- Strict lexicographic order on the selection key triple (Python tuple `<`). -/
def keyLt (x y : ℚ × ℚ × Int) : Prop :=
  x.1 < y.1 ∨ (x.1 = y.1 ∧ (x.2.1 < y.2.1 ∨ (x.2.1 = y.2.1 ∧ x.2.2 < y.2.2)))

instance (x y : ℚ × ℚ × Int) : Decidable (keyLt x y) := by
  unfold keyLt; infer_instance

/-- Python's built-in `max(iterable, key=...)`: scan left to right, replacing
the current best exactly when the candidate's key is strictly greater. -/
def pyMax : List (Nat × Actor) → Option (Nat × Actor)
  | [] => none
  | x :: rest =>
    some (rest.foldl (fun best y => if keyLt (selKey best) (selKey y) then y else best) x)

/-- The simultaneous fill of `step_tick` step 1:
`turn_meter += speed * speed_multiplier * speed_multiplier_from_effects(effects)`. -/
def fillActors (actors : List Actor) : List Actor :=
  actors.map fun a =>
    { a with
      turn_meter :=
        a.turn_meter + a.speed * a.speed_multiplier * speed_multiplier_from_effects a.effects }

/-- `ready_indexed` of `step_tick`: the enumerated actors passing the gate. -/
def readyIndexed (actors : List Actor) : List (Nat × Actor) :=
  (pyEnum actors).filter fun ia => eligibleB ia.2

/-- `extra_candidates` of `step_tick` step 0: enumerated actors with
`extra_turns > 0`. -/
def extraCandidates (actors : List Actor) : List (Nat × Actor) :=
  (pyEnum actors).filter fun ia => 0 < ia.2.extra_turns

/-! ## Python string built-ins

`str.strip()` / `str.lower()` / `str.upper()` used by `engine.py`.  Lean's
`String.trim` (and the byte-position string functions generally) are defined
by well-founded recursion and do not reduce inside the kernel, so the
embedding uses structurally recursive implementations over the character
list with the same semantics. -/

/-- Python `str.strip()`: drop leading and trailing whitespace. -/
def pyStrip (s : String) : String :=
  ⟨((s.data.dropWhile Char.isWhitespace).reverse.dropWhile Char.isWhitespace).reverse⟩

/-- Python `str.lower()` (ASCII, as used for the engine's name comparisons). -/
def pyLower (s : String) : String := ⟨s.data.map Char.toLower⟩

/-- Python `str.upper()` (ASCII, as used for the engine's skill-token
comparisons). -/
def pyUpper (s : String) : String := ⟨s.data.map Char.toUpper⟩

/-! ## engine.py: TURN_END duration machinery -/

/-- The per-instance update of `_decrement_active_effect_durations_turn_end`:
BUFF instances skip the decrement on their placement turn
(`applied_turn == turn_counter`), otherwise `duration = max(0, duration - 1)`
when positive (0 stays 0); non-BUFF instances are untouched. -/
def decrementInstance (turnCounter : Int) (fx : EffectInstance) : EffectInstance :=
  if fx.effect_kind = "BUFF" then
    let d0 := fx.duration
    let newD :=
      if fx.applied_turn = turnCounter then d0
      else if 0 < d0 then max 0 (d0 - 1) else 0
    { fx with duration := newD }
  else fx

/-- `_decrement_active_effect_durations_turn_end` from `engine.py`: updates
the owner's `active_effects` in place and returns the map
`instance_id -> duration before decrement` (empty list early-out included). -/
def decrementActiveEffectDurationsTurnEnd (turnCounter : Int) (actor : Actor) :
    Actor × List (String × Int) :=
  if actor.active_effects = [] then (actor, [])
  else
    ({ actor with active_effects := actor.active_effects.map (decrementInstance turnCounter) },
     actor.active_effects.map fun fx => (fx.instance_id, fx.duration))

/-- `_emit_effect_duration_changed_events` from `engine.py`: one
EFFECT_DURATION_CHANGED per BUFF instance whose duration changed (payload
fields are not modelled; only the emission itself is). -/
def emitDurationChanged (owner : Actor) (durBefore : List (String × Int)) (s : Sink) : Sink :=
  owner.active_effects.foldl
    (fun s fx =>
      if fx.effect_kind = "BUFF" ∧ lookupD durBefore fx.instance_id fx.duration ≠ fx.duration
      then s.emitRaw .EFFECT_DURATION_CHANGED (some owner.name)
      else s)
    s

/-- `_record_qualifying_expiration` from `engine.py`: count a BUFF expiration
whose `placed_by` names an existing actor, keyed by `(holder name, holder's
current 1-based skill-sequence step)`; steps `<= 0` are not counted. -/
def recordQualifyingExpiration (actors : List Actor) (fx : EffectInstance) (s : Sink) : Sink :=
  if fx.effect_kind ≠ "BUFF" then s
  else if pyStrip fx.placed_by = "" then s
  else
    match actors.find? (fun a => a.name == fx.placed_by) with
    | none => s
    | some holder =>
      if holder.skill_sequence_cursor ≤ 0 then s
      else { s with qualCounts := bumpCount (holder.name, holder.skill_sequence_cursor) s.qualCounts }

/-- The expiry test of `_expire_active_effects_turn_end`: a BUFF instance
whose duration was `> 0` before decrement and is `<= 0` after. -/
def isExpiredInstance (durBefore : List (String × Int)) (fx : EffectInstance) : Bool :=
  fx.effect_kind = "BUFF" ∧ 0 < lookupD durBefore fx.instance_id fx.duration ∧ fx.duration ≤ 0

/-- `_expire_active_effects_turn_end` from `engine.py`: remove BUFF instances
whose duration crossed from `> 0` (before decrement) to `<= 0`, emit
EFFECT_EXPIRED for each, and record the qualifying expiration. -/
def expireActiveEffectsTurnEnd (iBest : Nat) (actors : List Actor)
    (durBefore : List (String × Int)) (s : Sink) : List Actor × Sink :=
  if (actors.getD iBest default).active_effects = [] then (actors, s)
  else if (actors.getD iBest default).active_effects.filter (isExpiredInstance durBefore) = []
  then (actors, s)
  else
    let owner := actors.getD iBest default
    let actors1 := updateAt iBest
      (fun a =>
        { a with
          active_effects := owner.active_effects.filter fun fx => ¬ isExpiredInstance durBefore fx })
      actors
    (actors1,
     (owner.active_effects.filter (isExpiredInstance durBefore)).foldl
       (fun s fx =>
         recordQualifyingExpiration actors1 fx (s.emitRaw .EFFECT_EXPIRED (some owner.name)))
       s)

/-! ## engine.py: hit application and Mithrala block of step_tick -/

/-- The resolver seam of `step_tick`: the value of
`hit_contribution_resolver or _default_hit_contribution_resolver`, i.e. the
hit-contribution callback actually used for the call.  Inputs mirror the
Python keyword arguments `(acting_actor, actors, base_hits, turn_counter,
tick)`. -/
def HitResolver : Type :=
  Actor → List Actor → List (String × Int) → Int → Nat → List (String × Int)

/-- The merge loop of `step_tick`: add each nonzero extra contribution onto
the base hit map (`merged[k] = merged.get(k, 0) + inc`). -/
def mergeHits (base extra : List (String × Int)) : List (String × Int) :=
  extra.foldl
    (fun m kv => if kv.2 = 0 then m else setKey kv.1 (lookupD m kv.1 0 + kv.2) m)
    base

/-- `sum(int(v) for k, v in current_hits.items() if k != "REFLECT")`. -/
def sumNonReflect (l : List (String × Int)) : Int :=
  (l.filter fun kv => kv.1 ≠ "REFLECT").foldl (fun s kv => s + kv.2) 0

/-- The base-hit-map selection of `step_tick` (source lines 1937-1952):
`hit_provider(best.name)` when a provider is given, else
`hit_counts_by_actor`; when the winner is the boss *and* the hits came from
`hit_provider`, the map is cleared (`current_hits = {}`) so the boss's own
skill hits are discarded. -/
def currentHitsForStep (iBest : Nat) (actors : List Actor)
    (hitCountsByActor : Option (List (String × Int)))
    (hitProvider : Option (String → List (String × Int))) : Option (List (String × Int)) :=
  match hitProvider with
  | some f =>
    if (actors.getD iBest default).is_boss then some []
    else some (f (actors.getD iBest default).name)
  | none => hitCountsByActor

/-- The shield application of `step_tick` (source lines 1977-1986): apply
the non-REFLECT sum and then the REFLECT count of the merged hit map against
the first boss actor's shield, flooring at 0 each time. -/
def applyHitsToBoss (actors : List Actor) (merged : List (String × Int)) : List Actor :=
  match actors.findIdx? (fun a => a.is_boss) with
  | none => actors
  | some bIdx =>
    let actors1 :=
      if 0 < sumNonReflect merged then
        updateAt bIdx (fun b => { b with shield := max 0 (b.shield - sumNonReflect merged) })
          actors
      else actors
    if 0 < lookupD merged "REFLECT" 0 then
      updateAt bIdx (fun b => { b with shield := max 0 (b.shield - lookupD merged "REFLECT" 0) })
        actors1
    else actors1

/-- The boss-shield hit-application slice of `step_tick` (source lines
1936-1986): choose the base hit map (boss-turn provider hits cleared), merge
the resolver's extra contributions additively when there are any, then apply
the merged map against the boss shield. -/
def hitPhase (iBest : Nat) (actors : List Actor) (tick : Nat)
    (hitCountsByActor : Option (List (String × Int)))
    (hitProvider : Option (String → List (String × Int)))
    (resolver : HitResolver) (turnCounter : Int) : List Actor :=
  match currentHitsForStep iBest actors hitCountsByActor hitProvider with
  | none => actors
  | some base =>
    let extra := resolver (actors.getD iBest default) actors base turnCounter tick
    applyHitsToBoss actors (if extra = [] then base else mergeHits base extra)

/-- The engine-owned Mithrala A2 block of `step_tick`: when the winner is
named "mithrala" (case/space-insensitively), its last consumed skill token is
"A2" and the boss shield is already open (0), append a 2-turn HEX to the boss
and emit EFFECT_APPLIED. -/
def mithralaPhase (iBest : Nat) (actors : List Actor) (s : Sink) : List Actor × Sink :=
  let best := actors.getD iBest default
  let seq := best.skill_sequence
  let cursor := best.skill_sequence_cursor
  let lastSkill :=
    if 0 < cursor ∧ cursor ≤ (seq.length : Int) then seq.getD (cursor - 1).toNat "" else ""
  if pyLower (pyStrip best.name) = "mithrala" ∧ pyUpper (pyStrip lastSkill) = "A2" then
    match actors.findIdx? (fun a => a.is_boss) with
    | none => (actors, s)
    | some bIdx =>
      if (actors.getD bIdx default).shield = 0 then
        (updateAt bIdx (fun b => { b with effects := b.effects ++ [⟨.HEX, 2, 0⟩] }) actors,
         s.emitRaw .EFFECT_APPLIED (some best.name))
      else (actors, s)
  else (actors, s)

/-! ## engine.py: step_tick -/

/-- The result of one `step_tick` call: the acting actor (by index into the
caller's list), the updated actor list, and the updated sink. -/
structure StepOut where
  winner : Option Nat
  actors : List Actor
  sink : Sink
deriving DecidableEq, Repr

/-- The boss-shield TURN_START reset of `step_tick`: if the winner is the boss
and has a `shield_max`, reset `shield = shield_max` before TURN_START. -/
def bossShieldReset (a : Actor) : Actor :=
  if a.is_boss then
    match a.shield_max with
    | some m => { a with shield := m }
    | none => a
  else a

/-- `turnEndPhase`: the end-of-turn slice of `step_tick` (source lines
2138-2171): decrement the winner's `active_effects` durations, emit
EFFECT_DURATION_CHANGED, expire instances that reached 0, then decrement the
winner's legacy `effects` and emit their expirations. -/
def turnEndPhase (iBest : Nat) (actors : List Actor) (s : Sink) (turnCounter : Int) :
    List Actor × Sink :=
  let best := actors.getD iBest default
  let dec := decrementActiveEffectDurationsTurnEnd turnCounter best
  let actors1 := updateAt iBest (fun _ => dec.1) actors
  let durBefore := dec.2
  let s1 := emitDurationChanged (actors1.getD iBest default) durBefore s
  let ex :=
    if durBefore = [] then (actors1, s1)
    else expireActiveEffectsTurnEnd iBest actors1 durBefore s1
  let best2 := ex.1.getD iBest default
  let de := decrement_turn_end best2.effects
  let actors3 := updateAt iBest (fun a => { a with effects := de.1 }) ex.1
  let s3 := de.2.foldl (fun s _ => s.emitRaw .EFFECT_EXPIRED (some best2.name)) ex.2
  (actors3, s3)

/-- `poisonPhase`: the TURN_START effect triggers of `step_tick` (source
lines 1910-1934): POISON on the winner deals damage (when the winner has an
hp model) and decrements; resulting expirations are emitted immediately. -/
def poisonPhase (iBest : Nat) (actors : List Actor) (s : Sink) (bestName : String) :
    List Actor × Sink :=
  let best1 := actors.getD iBest default
  let psn : List Effect × List Effect × ℚ := apply_turn_start_effects best1.effects
  let actors4 := updateAt iBest (fun a => { a with effects := psn.1 }) actors
  if 0 < psn.2.2 ∧ 0 < best1.max_hp then
    (updateAt iBest (fun a => { a with hp := max 0 (a.hp - psn.2.2) }) actors4,
     psn.2.1.foldl (fun s _ => s.emitRaw .EFFECT_EXPIRED (some bestName))
       (s.emitRaw .EFFECT_TRIGGERED (some bestName)))
  else
    (actors4, psn.2.1.foldl (fun s _ => s.emitRaw .EFFECT_EXPIRED (some bestName)) s)

/-- `actPhase`: everything `step_tick` does from WINNER_SELECTED to TURN_END
once the acting actor's index is fixed (source lines 1810-2194), for a call
with an event sink and with the optional seams `expiration_resolver`,
`mastery_proc_requester`, `effect_placement_provider` and `snapshot_capture`
absent (`None`); `resolver` is the value of
`hit_contribution_resolver or _default_hit_contribution_resolver`. -/
def actPhase (iBest : Nat) (actors : List Actor) (s : Sink)
    (hitCountsByActor : Option (List (String × Int)))
    (hitProvider : Option (String → List (String × Int)))
    (resolver : HitResolver) : StepOut :=
  let bestName := (actors.getD iBest default).name
  let s1 := s.emitRaw .WINNER_SELECTED (some bestName)
  let actors1 := updateAt iBest (fun a => { a with turn_meter := 0 }) actors
  let s2 := s1.emitRaw .RESET_APPLIED (some bestName)
  let actors2 := updateAt iBest bossShieldReset actors1
  let s3 := s2.emitRaw .TURN_START (some bestName)
  let s4 := { s3 with turnCounter := s3.turnCounter + 1 }
  let actors3 : List Actor := actors2.map fun a => { a with current_turn_counter := s4.turnCounter }
  let pp := poisonPhase iBest actors3 s4 bestName
  let actors5 :=
    hitPhase iBest pp.1 pp.2.tick hitCountsByActor hitProvider resolver s4.turnCounter
  let mith := mithralaPhase iBest actors5 pp.2
  let te := turnEndPhase iBest mith.1 mith.2 s4.turnCounter
  ⟨some iBest, te.1, te.2.emitRaw .TURN_END (some (te.1.getD iBest default).name)⟩

/-- `step_tick` from `engine.py`, for a call with an event sink and with the
seams `expiration_resolver` / `expiration_injector`,
`mastery_proc_requester`, `effect_placement_provider` and `snapshot_capture`
absent (every block guarded by `if <seam> is not None` is skipped, and the
guarded mastery-proc resolution — modelled separately by `resolveGuarded` —
is not reached).  Step 0 grants the first pending extra turn without meter
fill; step 0.5 opens a tick exactly when the turn is not an extra turn or no
tick was ever opened; otherwise all actors fill simultaneously, the gate is
checked, and the winner is the Python `max` over the ready actors keyed by
`(turn_meter, speed, -index)`. -/
def stepTick (actors : List Actor) (s : Sink)
    (hitCountsByActor : Option (List (String × Int)) := none)
    (hitProvider : Option (String → List (String × Int)) := none)
    (resolver : HitResolver := fun _ _ _ _ _ => []) : StepOut :=
  match extraCandidates actors with
  | (i0, _) :: _ =>
    let actors1 := updateAt i0 (fun a => { a with extra_turns := a.extra_turns - 1 }) actors
    let s1 := if s.tick = 0 then (s.startTick).emitRaw .TICK_START else s
    actPhase i0 actors1 s1 hitCountsByActor hitProvider resolver
  | [] =>
    let s1 := (s.startTick).emitRaw .TICK_START
    let actors1 := fillActors actors
    let s2 := s1.emitRaw .FILL_COMPLETE
    match pyMax (readyIndexed actors1) with
    | none => ⟨none, actors1, s2⟩
    | some iw => actPhase iw.1 actors1 s2 hitCountsByActor hitProvider resolver

/-! ## engine.py: guarded mastery-proc resolution

`_resolve_guarded_mastery_procs_for_qualifying_expirations` reads and writes
state stored on the event sink (`_qualifying_expiration_counts`,
`_mastery_proc_keys_resolved`) and appends events through `emit`.  The
embedding threads that state explicitly: `GState` carries the actor list, the
resolved-key set and the sequence of emitted mastery events.  The
qualifying-expiration counts are read-only for this function and are passed
separately. -/

/-- One mastery-proc request dict `{holder, mastery, count}` returned by the
request provider. -/
structure ProcReq where
  holder : String
  mastery : String
  count : Int
deriving DecidableEq, Repr

/-- The structured payload of the MASTERY_PROC / MASTERY_PROC_REJECTED events
emitted by the guarded resolver (field names follow the Python keyword
arguments; `resolution_phase` carries the `EventType` whose `str()` the
Python code stores). -/
inductive MasteryEvent where
  | proc (holder mastery : String) (count qualifying_expiration_count : Int)
      (resolution_phase : EType) (resolution_step skill_sequence_step turn_counter : Int)
  | rejected (holder mastery : String)
      (requested_count qualifying_count qualifying_expiration_count : Int)
      (resolution_phase : EType) (resolution_step skill_sequence_step turn_counter : Int)
      (reason : String)
deriving DecidableEq, Repr

/-- The sink-attached state the guarded resolver reads and writes. -/
structure GState where
  actors : List Actor
  resolved : List (String × Int)
  events : List MasteryEvent
deriving DecidableEq, Repr

/-- `_apply_mastery_proc_effects` from `engine.py`: the deterministic
effect-plane handler; for Mikage's rapid_response (and Mithrala's
arcane_celerity) add `TM_GATE * 0.10 * count` to that actor's turn meter. -/
def applyMasteryProcEffects (actors : List Actor) (holder mastery : String) (count : Int) :
    List Actor :=
  if count ≤ 0 then actors
  else if pyStrip holder = "Mikage" ∧ pyStrip mastery = "rapid_response" then
    match actors.findIdx? (fun x => x.name == "Mikage") with
    | none => actors
    | some i =>
      updateAt i (fun a => { a with turn_meter := a.turn_meter + TM_GATE * (1 / 10) * count }) actors
  else if pyStrip holder = "Mithrala" ∧ pyStrip mastery = "arcane_celerity" then
    match actors.findIdx? (fun x => x.name == "Mithrala") with
    | none => actors
    | some i =>
      updateAt i (fun a => { a with turn_meter := a.turn_meter + TM_GATE * (1 / 10) * count }) actors
  else actors

/-- The request-tally loop shared by both halves of the guarded resolver:
skip items whose `holder` / `mastery` do not match (`mastery` must be
"rapid_response"), raise (`none`) on a non-positive `count`, otherwise set
`has_request` and accumulate `requested_total`. -/
def tallyRapidResponse (holderName : String) : List ProcReq → Option (Bool × Int)
  | [] => some (false, 0)
  | it :: rest =>
    if it.holder ≠ holderName then tallyRapidResponse holderName rest
    else if it.mastery ≠ "rapid_response" then tallyRapidResponse holderName rest
    else if it.count ≤ 0 then none
    else (tallyRapidResponse holderName rest).map fun ht => (true, it.count + ht.2)

/-- The body of the first loop of
`_resolve_guarded_mastery_procs_for_qualifying_expirations` for one counts
entry `((holder, step), q)`: holders other than "Mikage" and entries with
`step <= 0`, `q <= 0` or an already-resolved key are skipped; otherwise the
declared requests are tallied and exactly one MASTERY_PROC (with the proc
effects applied) or MASTERY_PROC_REJECTED is emitted and the key marked
resolved. -/
def processGuardedEntry (requester : String → Int → List ProcReq) (turnCounter : Int)
    (st : GState) (holderName : String) (step q : Int) : Option GState :=
  if holderName ≠ "Mikage" then some st
  else if step ≤ 0 ∨ q ≤ 0 then some st
  else if (holderName, step) ∈ st.resolved then some st
  else
    match tallyRapidResponse holderName (requester holderName step) with
    | none => none
    | some ht =>
      if ¬ ht.1 then some st
      else if q < ht.2 then
        some
          { st with
            events := st.events ++
              [.rejected holderName "rapid_response" ht.2 q q .TURN_END step step turnCounter
                "requested_count_exceeds_qualifying"]
            resolved := insertKey (holderName, step) st.resolved }
      else
        some
          { actors := applyMasteryProcEffects st.actors holderName "rapid_response" ht.2
            events := st.events ++
              [.proc holderName "rapid_response" ht.2 q .TURN_END step step turnCounter]
            resolved := insertKey (holderName, step) st.resolved }

/-- The first loop of the guarded resolver, over the deterministically sorted
counts entries; a raised `ValueError` (`none`) aborts the whole resolution. -/
def guardedLoop (requester : String → Int → List ProcReq) (turnCounter : Int) :
    List ((String × Int) × Int) → GState → Option GState
  | [], st => some st
  | e :: rest, st =>
    match processGuardedEntry requester turnCounter st e.1.1 e.1.2 e.2 with
    | none => none
    | some st1 => guardedLoop requester turnCounter rest st1

/-- The body of the second half of the guarded resolver (Slice D / D4) once
the holder "Mikage" has been found and its consumed-so-far `step` read: when
the key is unresolved and has no qualifying expirations (`Q == 0`) but a
request is declared, emit an explicit MASTERY_PROC_REJECTED with reason
"no_qualifying_expirations" and mark the key resolved. -/
def resolveZeroStep (counts : List ((String × Int) × Int))
    (requester : String → Int → List ProcReq) (turnCounter : Int) (st : GState)
    (step : Int) : Option GState :=
  if step ≤ 0 then some st
  else if ("Mikage", step) ∈ st.resolved then some st
  else if countsGet counts ("Mikage", step) ≠ 0 then some st
  else
    match tallyRapidResponse "Mikage" (requester "Mikage" step) with
    | none => none
    | some ht =>
      if ¬ ht.1 then some st
      else
        some
          { st with
            events := st.events ++
              [.rejected "Mikage" "rapid_response" ht.2 0 0 .TURN_END step step turnCounter
                "no_qualifying_expirations"]
            resolved := insertKey ("Mikage", step) st.resolved }

/-- The second half of the guarded resolver (Slice D / D4): the loop
`for holder_name in ("Mikage",)` — find the holder among the actors and run
the zero-qualifying check for its current step. -/
def resolveZeroQualifying (counts : List ((String × Int) × Int))
    (requester : String → Int → List ProcReq) (turnCounter : Int) (st : GState) :
    Option GState :=
  match st.actors.find? (fun a => a.name == "Mikage") with
  | none => some st
  | some holder =>
    resolveZeroStep counts requester turnCounter st holder.skill_sequence_cursor

/-- Stable insertion into a list sorted by the counts key `(name, step)`.
Used to model Python's `sorted(counts.items(), key=...)`; the counts map has
unique keys, so any comparison sort by this key produces the same list. -/
def insertByKey (e : (String × Int) × Int) :
    List ((String × Int) × Int) → List ((String × Int) × Int)
  | [] => [e]
  | f :: rest =>
    if e.1.1 < f.1.1 ∨ (e.1.1 = f.1.1 ∧ e.1.2 ≤ f.1.2) then e :: f :: rest
    else f :: insertByKey e rest

/-- `sorted(counts.items(), key=lambda kv: (str(kv[0][0]), int(kv[0][1])))`. -/
def sortCounts (counts : List ((String × Int) × Int)) : List ((String × Int) × Int) :=
  counts.foldr insertByKey []

/-- `_resolve_guarded_mastery_procs_for_qualifying_expirations` from
`engine.py`: the guarded TURN_END reconciliation between declared mastery-proc
requests and observed qualifying expirations.  `counts` is the sink's
`_qualifying_expiration_counts`, `st` carries the actor list, the sink's
`_mastery_proc_keys_resolved` set and the emitted mastery events. -/
def resolveGuarded (counts : List ((String × Int) × Int))
    (requester : String → Int → List ProcReq) (turnCounter : Int) (st : GState) :
    Option GState :=
  match guardedLoop requester turnCounter (sortCounts counts) st with
  | none => none
  | some st1 => resolveZeroQualifying counts requester turnCounter st1

/-! ## Lemmas about the legacy effect model (effects.py) -/

lemma ats_damage_eq (l : List Effect) :
    ∀ a : ℚ,
      l.foldl
        (fun dmg e =>
          if e.turns_remaining ≤ 0 then dmg
          else if e.kind = .POISON then dmg + e.magnitude
          else dmg)
        a = a + (apply_turn_start_effects l).2.2 := by
  induction l with
  | nil => intro a; simp [apply_turn_start_effects]
  | cons e rest ih =>
    intro a
    by_cases h0 : e.turns_remaining ≤ 0
    · simp [apply_turn_start_effects, h0, List.foldl_cons, ih]
    · by_cases hp : e.kind = EffectKind.POISON
      · by_cases hn : e.turns_remaining - 1 ≤ 0 <;>
          simp [apply_turn_start_effects, h0, hp, hn, List.foldl_cons, ih] <;> ring
      · simp [apply_turn_start_effects, h0, hp, List.foldl_cons, ih]

lemma ats_nonpoison_mem {l : List Effect} {e : Effect} (he : e ∈ l)
    (h0 : 0 < e.turns_remaining) (hk : e.kind ≠ .POISON) :
    e ∈ (apply_turn_start_effects l).1 := by
  induction l with
  | nil => cases he
  | cons f rest ih =>
    rcases List.mem_cons.mp he with rfl | hmem
    · simp [apply_turn_start_effects, not_le.mpr h0, hk]
    · have htail := ih hmem
      by_cases hf0 : f.turns_remaining ≤ 0
      · simpa [apply_turn_start_effects, hf0] using htail
      · by_cases hfp : f.kind = EffectKind.POISON
        · by_cases hfn : f.turns_remaining - 1 ≤ 0 <;>
            simp [apply_turn_start_effects, hf0, hfp, hfn, htail]
        · simp [apply_turn_start_effects, hf0, hfp, htail]

lemma ats_poison_mem {l : List Effect} {e : Effect} (he : e ∈ l)
    (h0 : 0 < e.turns_remaining) (hk : e.kind = .POISON) :
    (0 < e.turns_remaining - 1 ∧
        (⟨e.kind, e.turns_remaining - 1, e.magnitude⟩ : Effect) ∈ (apply_turn_start_effects l).1) ∨
      (e.turns_remaining - 1 ≤ 0 ∧
        (⟨e.kind, 0, e.magnitude⟩ : Effect) ∈ (apply_turn_start_effects l).2.1) := by
  induction l with
  | nil => cases he
  | cons f rest ih =>
    rcases List.mem_cons.mp he with rfl | hmem
    · by_cases hn : e.turns_remaining - 1 ≤ 0
      · right
        exact ⟨hn, by simp [apply_turn_start_effects, not_le.mpr h0, hk, hn]⟩
      · left
        exact ⟨lt_of_not_le hn, by simp [apply_turn_start_effects, not_le.mpr h0, hk, hn]⟩
    · have htail := ih hmem
      by_cases hf0 : f.turns_remaining ≤ 0
      · rcases htail with ⟨h1, h2⟩ | ⟨h1, h2⟩
        · exact Or.inl ⟨h1, by simpa [apply_turn_start_effects, hf0] using h2⟩
        · exact Or.inr ⟨h1, by simp [apply_turn_start_effects, hf0, h2]⟩
      · by_cases hfp : f.kind = EffectKind.POISON
        · by_cases hfn : f.turns_remaining - 1 ≤ 0
          · rcases htail with ⟨h1, h2⟩ | ⟨h1, h2⟩
            · exact Or.inl ⟨h1, by simpa [apply_turn_start_effects, hf0, hfp, hfn] using h2⟩
            · exact Or.inr ⟨h1, by simp [apply_turn_start_effects, hf0, hfp, hfn, h2]⟩
          · rcases htail with ⟨h1, h2⟩ | ⟨h1, h2⟩
            · exact Or.inl ⟨h1, by simp [apply_turn_start_effects, hf0, hfp, hfn, h2]⟩
            · exact Or.inr ⟨h1, by simpa [apply_turn_start_effects, hf0, hfp, hfn] using h2⟩
        · rcases htail with ⟨h1, h2⟩ | ⟨h1, h2⟩
          · exact Or.inl ⟨h1, by simp [apply_turn_start_effects, hf0, hfp, h2]⟩
          · exact Or.inr ⟨h1, by simpa [apply_turn_start_effects, hf0, hfp] using h2⟩

lemma dte_poison_mem {l : List Effect} {e : Effect} (he : e ∈ l)
    (h0 : 0 < e.turns_remaining) (hk : e.kind = .POISON) :
    e ∈ (decrement_turn_end l).1 := by
  induction l with
  | nil => cases he
  | cons f rest ih =>
    rcases List.mem_cons.mp he with rfl | hmem
    · simp [decrement_turn_end, not_le.mpr h0, hk]
    · have htail := ih hmem
      by_cases hf0 : f.turns_remaining ≤ 0
      · simpa [decrement_turn_end, hf0] using htail
      · by_cases hfp : f.kind = EffectKind.POISON
        · simp [decrement_turn_end, hf0, hfp, htail]
        · by_cases hfn : f.turns_remaining - 1 ≤ 0 <;>
            simp [decrement_turn_end, hf0, hfp, hfn, htail]

lemma dte_nonpoison_mem {l : List Effect} {e : Effect} (he : e ∈ l)
    (h0 : 0 < e.turns_remaining) (hk : e.kind ≠ .POISON) :
    (0 < e.turns_remaining - 1 ∧
        (⟨e.kind, e.turns_remaining - 1, e.magnitude⟩ : Effect) ∈ (decrement_turn_end l).1) ∨
      (e.turns_remaining - 1 ≤ 0 ∧
        (⟨e.kind, 0, e.magnitude⟩ : Effect) ∈ (decrement_turn_end l).2) := by
  induction l with
  | nil => cases he
  | cons f rest ih =>
    rcases List.mem_cons.mp he with rfl | hmem
    · by_cases hn : e.turns_remaining - 1 ≤ 0
      · exact Or.inr ⟨hn, by simp [decrement_turn_end, not_le.mpr h0, hk, hn]⟩
      · exact Or.inl ⟨lt_of_not_le hn, by simp [decrement_turn_end, not_le.mpr h0, hk, hn]⟩
    · have htail := ih hmem
      by_cases hf0 : f.turns_remaining ≤ 0
      · rcases htail with ⟨h1, h2⟩ | ⟨h1, h2⟩
        · exact Or.inl ⟨h1, by simpa [decrement_turn_end, hf0] using h2⟩
        · exact Or.inr ⟨h1, by simp [decrement_turn_end, hf0, h2]⟩
      · by_cases hfp : f.kind = EffectKind.POISON
        · rcases htail with ⟨h1, h2⟩ | ⟨h1, h2⟩
          · exact Or.inl ⟨h1, by simp [decrement_turn_end, hf0, hfp, h2]⟩
          · exact Or.inr ⟨h1, by simpa [decrement_turn_end, hf0, hfp] using h2⟩
        · by_cases hfn : f.turns_remaining - 1 ≤ 0
          · rcases htail with ⟨h1, h2⟩ | ⟨h1, h2⟩
            · exact Or.inl ⟨h1, by simp [decrement_turn_end, hf0, hfp, hfn, h2]⟩
            · exact Or.inr ⟨h1, by simp [decrement_turn_end, hf0, hfp, hfn, h2]⟩
          · rcases htail with ⟨h1, h2⟩ | ⟨h1, h2⟩
            · exact Or.inl ⟨h1, by simp [decrement_turn_end, hf0, hfp, hfn, h2]⟩
            · exact Or.inr ⟨h1, by simp [decrement_turn_end, hf0, hfp, hfn, h2]⟩

lemma dte_remaining_active {l : List Effect} :
    ∀ e ∈ (decrement_turn_end l).1, 0 < e.turns_remaining := by
  induction l with
  | nil => simp [decrement_turn_end]
  | cons f rest ih =>
    by_cases hf0 : f.turns_remaining ≤ 0
    · simpa [decrement_turn_end, hf0] using ih
    · by_cases hfp : f.kind = EffectKind.POISON
      · intro e he
        rcases List.mem_cons.mp (by simpa [decrement_turn_end, hf0, hfp] using he) with rfl | hm
        · exact lt_of_not_le hf0
        · exact ih e hm
      · by_cases hfn : f.turns_remaining - 1 ≤ 0
        · simpa [decrement_turn_end, hf0, hfp, hfn] using ih
        · intro e he
          rcases List.mem_cons.mp (by simpa [decrement_turn_end, hf0, hfp, hfn] using he) with rfl | hm
          · simpa using lt_of_not_le hfn
          · exact ih e hm

lemma dte_expired_inert {l : List Effect} :
    ∀ e ∈ (decrement_turn_end l).2, e.turns_remaining ≤ 0 := by
  induction l with
  | nil => simp [decrement_turn_end]
  | cons f rest ih =>
    by_cases hf0 : f.turns_remaining ≤ 0
    · intro e he
      rcases List.mem_cons.mp (by simpa [decrement_turn_end, hf0] using he) with rfl | hm
      · exact hf0
      · exact ih e hm
    · by_cases hfp : f.kind = EffectKind.POISON
      · simpa [decrement_turn_end, hf0, hfp] using ih
      · by_cases hfn : f.turns_remaining - 1 ≤ 0
        · intro e he
          rcases List.mem_cons.mp (by simpa [decrement_turn_end, hf0, hfp, hfn] using he) with rfl | hm
          · simp
          · exact ih e hm
        · simpa [decrement_turn_end, hf0, hfp, hfn] using ih

/-- C7: POISON is the only legacy effect processed at TURN_START, and
TURN_END decrements everything else, partitioning into still-active and
expired.  Conjuncts: (1) the damage returned by `apply_turn_start_effects` is
exactly `poison_damage_from_effects`, the sum of the active POISON
magnitudes; (2) an active non-POISON effect passes through TURN_START
unchanged; (3) an active POISON is decremented by 1 at TURN_START (moving to
the expired slot at 0); (4) `decrement_turn_end` leaves POISON unchanged;
(5) it decrements every active non-POISON effect by 1 (moving it to the
expired slot at 0); (6)/(7) its two outputs partition into still-active
(`turns_remaining > 0`) and expired (`turns_remaining <= 0`). -/
theorem poison_turn_start_asymmetry (l : List Effect) :
    (apply_turn_start_effects l).2.2 = poison_damage_from_effects l
    ∧ (∀ e ∈ l, 0 < e.turns_remaining → e.kind ≠ .POISON →
        e ∈ (apply_turn_start_effects l).1)
    ∧ (∀ e ∈ l, 0 < e.turns_remaining → e.kind = .POISON →
        (0 < e.turns_remaining - 1 ∧
          (⟨e.kind, e.turns_remaining - 1, e.magnitude⟩ : Effect) ∈ (apply_turn_start_effects l).1) ∨
        (e.turns_remaining - 1 ≤ 0 ∧
          (⟨e.kind, 0, e.magnitude⟩ : Effect) ∈ (apply_turn_start_effects l).2.1))
    ∧ (∀ e ∈ l, 0 < e.turns_remaining → e.kind = .POISON →
        e ∈ (decrement_turn_end l).1)
    ∧ (∀ e ∈ l, 0 < e.turns_remaining → e.kind ≠ .POISON →
        (0 < e.turns_remaining - 1 ∧
          (⟨e.kind, e.turns_remaining - 1, e.magnitude⟩ : Effect) ∈ (decrement_turn_end l).1) ∨
        (e.turns_remaining - 1 ≤ 0 ∧
          (⟨e.kind, 0, e.magnitude⟩ : Effect) ∈ (decrement_turn_end l).2))
    ∧ (∀ e ∈ (decrement_turn_end l).1, 0 < e.turns_remaining)
    ∧ (∀ e ∈ (decrement_turn_end l).2, e.turns_remaining ≤ 0) := by
  refine ⟨?_, ?_, ?_, ?_, ?_, dte_remaining_active, dte_expired_inert⟩
  · have h := ats_damage_eq l 0
    rw [poison_damage_from_effects, h, zero_add]
  · exact fun e he h0 hk => ats_nonpoison_mem he h0 hk
  · exact fun e he h0 hk => ats_poison_mem he h0 hk
  · exact fun e he h0 hk => dte_poison_mem he h0 hk
  · exact fun e he h0 hk => dte_nonpoison_mem he h0 hk

/-- Witness for C7: the theorem applied to a concrete effect list (an active
POISON of 2 turns and an active DECREASE_SPD of 1 turn), discharging the
membership and activity hypotheses there. -/
theorem poison_turn_start_asymmetry_witness :
    (⟨.DECREASE_SPD, 1, 1/2⟩ : Effect) ∈
      (apply_turn_start_effects [⟨.POISON, 2, 5⟩, ⟨.DECREASE_SPD, 1, 1/2⟩]).1
    ∧ (⟨.POISON, 2, 5⟩ : Effect) ∈
      (decrement_turn_end [⟨.POISON, 2, 5⟩, ⟨.DECREASE_SPD, 1, 1/2⟩]).1 :=
  ⟨(poison_turn_start_asymmetry [⟨.POISON, 2, 5⟩, ⟨.DECREASE_SPD, 1, 1/2⟩]).2.1
      ⟨.DECREASE_SPD, 1, 1/2⟩ (by simp) (by norm_num) (by decide),
    (poison_turn_start_asymmetry [⟨.POISON, 2, 5⟩, ⟨.DECREASE_SPD, 1, 1/2⟩]).2.2.2.1
      ⟨.POISON, 2, 5⟩ (by simp) (by norm_num) rfl⟩

/-! ## C6: placement-turn duration guard -/

/-- C6: at the owner's TURN_END, a BUFF instance placed on the current
turn-bookmark value (`applied_turn = turn_counter`) keeps its duration
unchanged, while any other BUFF instance has its duration decremented by 1,
floored at 0. -/
theorem buff_placement_turn_guard (actor : Actor) (tc : Int) (i : Nat) (fx : EffectInstance)
    (hget : actor.active_effects.get? i = some fx) (hbuff : fx.effect_kind = "BUFF") :
    (fx.applied_turn = tc →
      (decrementActiveEffectDurationsTurnEnd tc actor).1.active_effects.get? i = some fx)
    ∧ (fx.applied_turn ≠ tc →
      (decrementActiveEffectDurationsTurnEnd tc actor).1.active_effects.get? i =
        some { fx with duration := max 0 (fx.duration - 1) }) := by
  have hne : actor.active_effects ≠ [] := by
    intro h
    rw [h] at hget
    simp at hget
  have hmap :
      (decrementActiveEffectDurationsTurnEnd tc actor).1.active_effects =
        actor.active_effects.map (decrementInstance tc) := by
    simp [decrementActiveEffectDurationsTurnEnd, hne]
  constructor
  · intro hsame
    rw [hmap, List.get?_map, hget]
    cases fx with
    | mk iid eid ek pb dur ap =>
      simp only at hbuff hsame
      subst hbuff
      subst hsame
      simp [decrementInstance]
  · intro hdiff
    rw [hmap, List.get?_map, hget]
    cases fx with
    | mk iid eid ek pb dur ap =>
      simp only at hbuff
      subst hbuff
      have hdiff' : ap ≠ tc := hdiff
      have hd : (if 0 < dur then max 0 (dur - 1) else 0) = max 0 (dur - 1) := by
        rcases lt_or_le 0 dur with h | h
        · rw [if_pos h]
        · rw [if_neg (not_lt.mpr h), eq_comm]
          exact max_eq_left (by omega)
      simp [decrementInstance, hdiff', hd]

/-- Witness for C6: a same-turn-placed BUFF (applied_turn = 3 = counter) is
untouched while a BUFF placed earlier (applied_turn = 1) drops from 2 to 1. -/
theorem buff_placement_turn_guard_witness :
    (decrementActiveEffectDurationsTurnEnd 3
        { name := "Ally", speed := 100,
          active_effects := [⟨"fx1", "increase_atk", "BUFF", "Mikage", 2, 3⟩,
            ⟨"fx2", "shield", "BUFF", "Mikage", 2, 1⟩] }).1.active_effects.get? 0 =
      some ⟨"fx1", "increase_atk", "BUFF", "Mikage", 2, 3⟩
    ∧ (decrementActiveEffectDurationsTurnEnd 3
        { name := "Ally", speed := 100,
          active_effects := [⟨"fx1", "increase_atk", "BUFF", "Mikage", 2, 3⟩,
            ⟨"fx2", "shield", "BUFF", "Mikage", 2, 1⟩] }).1.active_effects.get? 1 =
      some ⟨"fx2", "shield", "BUFF", "Mikage", 1, 1⟩ :=
  ⟨(buff_placement_turn_guard
      { name := "Ally", speed := 100,
        active_effects := [⟨"fx1", "increase_atk", "BUFF", "Mikage", 2, 3⟩,
          ⟨"fx2", "shield", "BUFF", "Mikage", 2, 1⟩] }
      3 0 ⟨"fx1", "increase_atk", "BUFF", "Mikage", 2, 3⟩ rfl rfl).1 rfl,
    by
      have h := (buff_placement_turn_guard
        { name := "Ally", speed := 100,
          active_effects := [⟨"fx1", "increase_atk", "BUFF", "Mikage", 2, 3⟩,
            ⟨"fx2", "shield", "BUFF", "Mikage", 2, 1⟩] }
        3 1 ⟨"fx2", "shield", "BUFF", "Mikage", 2, 1⟩ rfl rfl).2 (by decide)
      simpa using h⟩

/-! ## C8: event-sink ordering -/

/-- One call a client can make on `InMemoryEventSink`. -/
inductive SinkOp where
  | startTick
  | emit (t : EType) (actor : Option String)
deriving DecidableEq, Repr

/-- Run a sequence of sink calls; an `emit` before any tick is opened raises
(`none`), as in `InMemoryEventSink.emit`. -/
def runOps : List SinkOp → Sink → Option Sink
  | [], s => some s
  | .startTick :: rest, s => runOps rest s.startTick
  | .emit t a :: rest, s =>
    match s.emit t a with
    | none => none
    | some s1 => runOps rest s1

/-- Strict lexicographic order on `(tick, seq)` pairs. -/
def pairLt (p q : Nat × Nat) : Prop := p.1 < q.1 ∨ (p.1 = q.1 ∧ p.2 < q.2)

/-- Non-strict companion of `pairLt`. -/
def pairLe (p q : Nat × Nat) : Prop := p.1 < q.1 ∨ (p.1 = q.1 ∧ p.2 ≤ q.2)

/-- The sink invariant behind C8: events are strictly `(tick, seq)`-ordered
and all bounded by the current `(tick, seq)` counters. -/
def SinkOrdered (s : Sink) : Prop :=
  (s.events.map fun e => (e.tick, e.seq)).Chain' pairLt
  ∧ ∀ e ∈ s.events, pairLe (e.tick, e.seq) (s.tick, s.seq)

lemma sinkOrdered_init : SinkOrdered Sink.init := by
  constructor <;> simp [Sink.init, SinkOrdered]

lemma sinkOrdered_startTick {s : Sink} (h : SinkOrdered s) : SinkOrdered s.startTick := by
  refine ⟨by simpa [Sink.startTick] using h.1, ?_⟩
  intro e he
  rcases h.2 e he with h1 | ⟨h1, _⟩
  · exact Or.inl (by simp [Sink.startTick]; omega)
  · exact Or.inl (by simp [Sink.startTick]; omega)

lemma sinkOrdered_emitRaw {s : Sink} (h : SinkOrdered s) (t : EType) (a : Option String) :
    SinkOrdered (s.emitRaw t a) := by
  constructor
  · rw [Sink.emitRaw]
    simp only [List.map_append, List.map_cons, List.map_nil]
    rw [List.chain'_append]
    refine ⟨h.1, List.chain'_singleton _, ?_⟩
    intro x hx y hy
    simp only [List.head?_cons, Option.mem_def, Option.some.injEq] at hy
    subst hy
    rcases List.mem_map.mp (List.mem_of_mem_getLast? hx) with ⟨e, he, rfl⟩
    rcases h.2 e he with h1 | ⟨h1, h2⟩
    · exact Or.inl h1
    · exact Or.inr ⟨h1, by omega⟩
  · intro e he
    rw [Sink.emitRaw] at he
    simp only [List.mem_append, List.mem_singleton] at he
    rcases he with he | rfl
    · rcases h.2 e he with h1 | ⟨h1, h2⟩
      · exact Or.inl h1
      · exact Or.inr ⟨h1, by simp [Sink.emitRaw]; omega⟩
    · exact Or.inr ⟨rfl, le_refl _⟩

lemma sinkOrdered_runOps :
    ∀ (ops : List SinkOp) (s s' : Sink), SinkOrdered s → runOps ops s = some s' →
      SinkOrdered s' := by
  intro ops
  induction ops with
  | nil =>
    intro s s' hs hrun
    rw [runOps] at hrun
    cases hrun
    exact hs
  | cons op rest ih =>
    intro s s' hs hrun
    cases op with
    | startTick =>
      rw [runOps] at hrun
      exact ih _ _ (sinkOrdered_startTick hs) hrun
    | emit t a =>
      rw [runOps] at hrun
      rw [Sink.emit] at hrun
      by_cases htick : s.tick = 0
      · rw [if_pos htick] at hrun
        cases hrun
      · rw [if_neg htick] at hrun
        exact ih _ _ (sinkOrdered_emitRaw hs t a) hrun

/-- C8: for any run of calls against a fresh `InMemoryEventSink` that does
not raise, the `(tick, seq)` pairs of the appended events are strictly
increasing lexicographically (no duplicates, no reversals); moreover
`start_tick` increments the tick and resets the seq counter, and every
successful `emit` within an open tick increments the seq counter by 1 and
appends an event stamped with it. -/
theorem sink_tick_seq_strictly_increasing (ops : List SinkOp) (s : Sink)
    (hrun : runOps ops Sink.init = some s) :
    (s.events.map fun e => (e.tick, e.seq)).Chain' pairLt
    ∧ (∀ s' : Sink, s'.startTick.tick = s'.tick + 1 ∧ s'.startTick.seq = 0)
    ∧ (∀ (s' s'' : Sink) (t : EType) (a : Option String), s'.emit t a = some s'' →
        s''.seq = s'.seq + 1 ∧ s''.tick = s'.tick ∧
        s''.events = s'.events ++ [⟨s'.tick, s'.seq + 1, t, a⟩]) := by
  refine ⟨(sinkOrdered_runOps ops Sink.init s sinkOrdered_init hrun).1, ?_, ?_⟩
  · intro s'
    exact ⟨rfl, rfl⟩
  · intro s' s'' t a hemit
    rw [Sink.emit] at hemit
    by_cases htick : s'.tick = 0
    · rw [if_pos htick] at hemit
      cases hemit
    · rw [if_neg htick] at hemit
      cases hemit
      exact ⟨rfl, rfl, rfl⟩

/-- Witness for C8: the theorem applied to the concrete run
start_tick, emit, emit, start_tick, emit. -/
theorem sink_tick_seq_strictly_increasing_witness :
    ∃ s : Sink,
      runOps [.startTick, .emit .TICK_START none, .emit .FILL_COMPLETE none, .startTick,
        .emit .TICK_START none] Sink.init = some s
      ∧ (s.events.map fun e => (e.tick, e.seq)).Chain' pairLt := by
  refine ⟨_, rfl, ?_⟩
  exact (sink_tick_seq_strictly_increasing
    [.startTick, .emit .TICK_START none, .emit .FILL_COMPLETE none, .startTick,
      .emit .TICK_START none] _ rfl).1

/-! ## Generic lemmas about the list helpers -/

lemma updateAt_get?_self (f : α → α) :
    ∀ (i : Nat) (l : List α), (updateAt i f l).get? i = (l.get? i).map f := by
  intro i
  induction i with
  | zero =>
    intro l
    cases l <;> simp [updateAt]
  | succ n ih =>
    intro l
    cases l with
    | nil => simp [updateAt]
    | cons a rest => simpa [updateAt] using ih rest

lemma updateAt_get?_other (f : α → α) :
    ∀ (i j : Nat) (l : List α), j ≠ i → (updateAt i f l).get? j = l.get? j := by
  intro i
  induction i with
  | zero =>
    intro j l hj
    cases l with
    | nil => simp [updateAt]
    | cons a rest =>
      cases j with
      | zero => exact absurd rfl hj
      | succ m => simp [updateAt]
  | succ n ih =>
    intro j l hj
    cases l with
    | nil => simp [updateAt]
    | cons a rest =>
      cases j with
      | zero => simp [updateAt]
      | succ m => simpa [updateAt] using ih m rest (fun h => hj (by omega))

lemma updateAt_length (f : α → α) :
    ∀ (i : Nat) (l : List α), (updateAt i f l).length = l.length := by
  intro i
  induction i with
  | zero => intro l; cases l <;> simp [updateAt]
  | succ n ih =>
    intro l
    cases l with
    | nil => simp [updateAt]
    | cons a rest => simpa [updateAt] using ih rest

lemma updateAt_map_eq (g : α → β) (f : α → α) (hf : ∀ a, g (f a) = g a) :
    ∀ (i : Nat) (l : List α), (updateAt i f l).map g = l.map g := by
  intro i
  induction i with
  | zero =>
    intro l
    cases l with
    | nil => simp [updateAt]
    | cons a rest => simp [updateAt, hf]
  | succ n ih =>
    intro l
    cases l with
    | nil => simp [updateAt]
    | cons a rest => simpa [updateAt] using ih rest

lemma updateAt_getElem?_self (f : α → α) (i : Nat) (l : List α) :
    (updateAt i f l)[i]? = l[i]?.map f := by
  have h := updateAt_get?_self f i l
  simpa [List.get?_eq_getElem?] using h

lemma updateAt_getElem?_other (f : α → α) (i j : Nat) (l : List α) (hj : j ≠ i) :
    (updateAt i f l)[j]? = l[j]? := by
  have h := updateAt_get?_other f i j l hj
  simpa [List.get?_eq_getElem?] using h

lemma findIdx?_first {p : α → Bool} :
    ∀ {l : List α} {j : Nat} {a : α}, l.get? j = some a → p a = true →
      (∀ k, k < j → ∀ b, l.get? k = some b → p b = false) → l.findIdx? p = some j := by
  intro l
  induction l with
  | nil => intro j a hget; simp at hget
  | cons x rest ih =>
    intro j a hget hp hfirst
    cases j with
    | zero =>
      simp only [List.get?] at hget
      cases hget
      simp [List.findIdx?, hp]
    | succ m =>
      have hx : p x = false := hfirst 0 (Nat.succ_pos m) x rfl
      simp only [List.get?] at hget
      have := ih hget hp (fun k hk b hb => hfirst (k + 1) (by omega) b hb)
      simp [List.findIdx?, hx, this]

lemma find?_of_map_eq (g : α → β) (p : α → Bool) (hp : ∀ a b, g a = g b → p a = p b) :
    ∀ (l l' : List α), l.map g = l'.map g →
      (l.find? p).map g = (l'.find? p).map g := by
  intro l
  induction l with
  | nil =>
    intro l' h
    cases l' with
    | nil => rfl
    | cons a rest => simp at h
  | cons a rest ih =>
    intro l' h
    cases l' with
    | nil => simp at h
    | cons a' rest' =>
      simp only [List.map_cons, List.cons.injEq] at h
      have hpeq : p a = p a' := hp a a' h.1
      by_cases hpa : p a = true
      · rw [List.find?_cons_of_pos _ hpa, List.find?_cons_of_pos _ (hpeq ▸ hpa)]
        simpa using h.1
      · have hpa' : ¬ p a' = true := fun hc => hpa (hpeq ▸ hc)
        rw [List.find?_cons_of_neg _ hpa, List.find?_cons_of_neg _ hpa']
        exact ih rest' h.2

lemma pyEnum_mem_iff : ∀ {l : List α} {i : Nat} {a : α}, (i, a) ∈ pyEnum l ↔ l.get? i = some a := by
  intro l
  induction l with
  | nil => intro i a; simp [pyEnum]
  | cons x xs ih =>
    intro i a
    cases i with
    | zero =>
      simp only [pyEnum, List.mem_cons, List.mem_map, List.get?]
      constructor
      · rintro (h | ⟨⟨j, b⟩, _, h⟩)
        · simpa using h.symm
        · exact absurd (congrArg Prod.fst h) (by simp)
      · intro h
        exact Or.inl (by simpa using h.symm)
    | succ n =>
      simp only [pyEnum, List.mem_cons, List.mem_map, List.get?]
      constructor
      · rintro (h | ⟨⟨j, b⟩, hmem, h⟩)
        · exact absurd (congrArg Prod.fst h) (by simp)
        · have hj : j = n := by
            have := congrArg Prod.fst h
            simpa using this
          have hb : b = a := by
            have := congrArg Prod.snd h
            simpa using this
          subst hj; subst hb
          exact ih.mp hmem
      · intro h
        exact Or.inr ⟨(n, a), ih.mpr h, rfl⟩

lemma keyLt_trans {x y z : ℚ × ℚ × Int} (h1 : keyLt x y) (h2 : keyLt y z) : keyLt x z := by
  rcases h1 with h1 | ⟨e1, h1 | ⟨e1b, h1⟩⟩ <;>
    rcases h2 with h2 | ⟨e2, h2 | ⟨e2b, h2⟩⟩ <;>
    unfold keyLt <;>
    first
      | exact Or.inl (lt_trans h1 h2)
      | exact Or.inl (e2 ▸ h1)
      | exact Or.inl (e1 ▸ h2)
      | exact Or.inr ⟨e1.trans e2, Or.inl (lt_trans h1 h2)⟩
      | exact Or.inr ⟨e1.trans e2, Or.inl (e2b ▸ h1)⟩
      | exact Or.inr ⟨e1.trans e2, Or.inl (e1b ▸ h2)⟩
      | exact Or.inr ⟨e1.trans e2, Or.inr ⟨e1b.trans e2b, lt_trans h1 h2⟩⟩

lemma keyLt_cases (x y : ℚ × ℚ × Int) : keyLt x y ∨ keyLt y x ∨ x = y := by
  rcases lt_trichotomy x.1 y.1 with h1 | h1 | h1
  · exact Or.inl (Or.inl h1)
  · rcases lt_trichotomy x.2.1 y.2.1 with h2 | h2 | h2
    · exact Or.inl (Or.inr ⟨h1, Or.inl h2⟩)
    · rcases lt_trichotomy x.2.2 y.2.2 with h3 | h3 | h3
      · exact Or.inl (Or.inr ⟨h1, Or.inr ⟨h2, h3⟩⟩)
      · refine Or.inr (Or.inr ?_)
        rcases x with ⟨x1, x2, x3⟩
        rcases y with ⟨y1, y2, y3⟩
        simp only at h1 h2 h3
        simp [h1, h2, h3]
      · exact Or.inr (Or.inl (Or.inr ⟨h1.symm, Or.inr ⟨h2.symm, h3⟩⟩))
    · exact Or.inr (Or.inl (Or.inr ⟨h1.symm, Or.inl h2⟩))
  · exact Or.inr (Or.inl (Or.inl h1))

lemma foldlMax_spec :
    ∀ (rest : List (Nat × Actor)) (b : Nat × Actor),
      (rest.foldl (fun best y => if keyLt (selKey best) (selKey y) then y else best) b = b
        ∨ rest.foldl (fun best y => if keyLt (selKey best) (selKey y) then y else best) b ∈ rest)
      ∧ ¬ keyLt
          (selKey (rest.foldl (fun best y => if keyLt (selKey best) (selKey y) then y else best) b))
          (selKey b)
      ∧ ∀ y ∈ rest,
          ¬ keyLt
            (selKey (rest.foldl (fun best y => if keyLt (selKey best) (selKey y) then y else best) b))
            (selKey y) := by
  intro rest
  induction rest with
  | nil =>
    intro b
    refine ⟨Or.inl rfl, ?_, by simp⟩
    intro h
    rcases h with h | ⟨_, h | ⟨_, h⟩⟩ <;> exact absurd h (lt_irrefl _)
  | cons y rest ih =>
    intro b
    simp only [List.foldl_cons]
    by_cases hby : keyLt (selKey b) (selKey y)
    · rw [if_pos hby]
      obtain ⟨hmem, hacc, hall⟩ := ih y
      refine ⟨?_, ?_, ?_⟩
      · rcases hmem with h | h
        · exact Or.inr (by rw [h]; exact List.mem_cons_self y rest)
        · exact Or.inr (List.mem_cons_of_mem y h)
      · intro hrb
        exact hacc (keyLt_trans hrb hby)
      · intro z hz
        rcases List.mem_cons.mp hz with rfl | hz
        · exact hacc
        · exact hall z hz
    · rw [if_neg hby]
      obtain ⟨hmem, hacc, hall⟩ := ih b
      refine ⟨?_, hacc, ?_⟩
      · rcases hmem with h | h
        · exact Or.inl h
        · exact Or.inr (List.mem_cons_of_mem y h)
      · intro z hz
        rcases List.mem_cons.mp hz with rfl | hz
        · intro hrz
          rcases keyLt_cases (selKey z) (selKey b) with hc | hc | hc
          · exact hacc (keyLt_trans hrz hc)
          · exact hby hc
          · rw [hc] at hrz
            exact hacc hrz
        · exact hall z hz

lemma pyMax_spec {l : List (Nat × Actor)} {x : Nat × Actor} (h : pyMax l = some x) :
    x ∈ l ∧ ∀ y ∈ l, ¬ keyLt (selKey x) (selKey y) := by
  cases l with
  | nil => simp [pyMax] at h
  | cons b rest =>
    rw [pyMax] at h
    injection h with h
    obtain ⟨hmem, hacc, hall⟩ := foldlMax_spec rest b
    rw [h] at hmem hacc hall
    refine ⟨?_, ?_⟩
    · rcases hmem with hh | hh
      · rw [hh]; exact List.mem_cons_self b rest
      · exact List.mem_cons_of_mem b hh
    · intro y hy
      rcases List.mem_cons.mp hy with rfl | hy
      · exact hacc
      · exact hall y hy

lemma pyMax_ne_nil {l : List (Nat × Actor)} (h : l ≠ []) : ∃ x, pyMax l = some x := by
  cases l with
  | nil => exact absurd rfl h
  | cons b rest => exact ⟨_, rfl⟩

/-! ## Lemmas about the guarded mastery-proc resolver -/

/-- The fields of an actor the resolver's lookups read: name and
skill-sequence cursor. -/
def nameCursor (a : Actor) : String × Int := (a.name, a.skill_sequence_cursor)

lemma applyMastery_nameCursor (l : List Actor) (h m : String) (c : Int) :
    (applyMasteryProcEffects l h m c).map nameCursor = l.map nameCursor := by
  rw [applyMasteryProcEffects]
  by_cases h0 : c ≤ 0
  · rw [if_pos h0]
  · rw [if_neg h0]
    by_cases h1 : pyStrip h = "Mikage" ∧ pyStrip m = "rapid_response"
    · rw [if_pos h1]
      cases hidx : l.findIdx? (fun x => x.name == "Mikage") with
      | none => rfl
      | some i =>
        exact updateAt_map_eq nameCursor
          (fun a => { a with turn_meter := a.turn_meter + TM_GATE * (1 / 10) * (c : ℚ) })
          (fun a => rfl) i l
    · rw [if_neg h1]
      by_cases h2 : pyStrip h = "Mithrala" ∧ pyStrip m = "arcane_celerity"
      · rw [if_pos h2]
        cases hidx : l.findIdx? (fun x => x.name == "Mithrala") with
        | none => rfl
        | some i =>
          exact updateAt_map_eq nameCursor
            (fun a => { a with turn_meter := a.turn_meter + TM_GATE * (1 / 10) * (c : ℚ) })
            (fun a => rfl) i l
      · rw [if_neg h2]

lemma find_cursor_eq (l l' : List Actor) (h : l.map nameCursor = l'.map nameCursor)
    (nm : String) :
    (l'.find? (fun a => a.name == nm)).map Actor.skill_sequence_cursor =
      (l.find? (fun a => a.name == nm)).map Actor.skill_sequence_cursor := by
  have hp : ∀ a b : Actor, nameCursor a = nameCursor b →
      (a.name == nm) = (b.name == nm) := by
    intro a b hab
    have : a.name = b.name := congrArg Prod.fst hab
    rw [this]
  have hfind := find?_of_map_eq nameCursor (fun a => a.name == nm) hp l l' h
  have hl : (l.find? (fun a => a.name == nm)).map Actor.skill_sequence_cursor =
      ((l.find? (fun a => a.name == nm)).map nameCursor).map Prod.snd := by
    cases l.find? (fun a => a.name == nm) <;> simp [nameCursor]
  have hl' : (l'.find? (fun a => a.name == nm)).map Actor.skill_sequence_cursor =
      ((l'.find? (fun a => a.name == nm)).map nameCursor).map Prod.snd := by
    cases l'.find? (fun a => a.name == nm) <;> simp [nameCursor]
  rw [hl, hl', hfind]

lemma applyMastery_find_cursor {l : List Actor} {m : Actor}
    (hm : l.find? (fun a => a.name == "Mikage") = some m) (h mst : String) (c : Int) :
    ∃ m', (applyMasteryProcEffects l h mst c).find? (fun a => a.name == "Mikage") = some m'
      ∧ m'.skill_sequence_cursor = m.skill_sequence_cursor := by
  have hmap := applyMastery_nameCursor l h mst c
  have hcur := find_cursor_eq l (applyMasteryProcEffects l h mst c) hmap.symm "Mikage"
  rw [hm] at hcur
  cases hfind : (applyMasteryProcEffects l h mst c).find? (fun a => a.name == "Mikage") with
  | none => rw [hfind] at hcur; simp at hcur
  | some m' =>
    rw [hfind] at hcur
    simp only [Option.map_some'] at hcur
    exact ⟨m', rfl, by injection hcur⟩

lemma insertKey_nil (k : String × Int) : insertKey k [] = [k] := by
  simp [insertKey]

lemma resolveZero_skip_resolved {st : GState} {m : Actor}
    (hm : st.actors.find? (fun a => a.name == "Mikage") = some m)
    (hs : 0 < m.skill_sequence_cursor)
    (hres : ("Mikage", m.skill_sequence_cursor) ∈ st.resolved)
    (counts : List ((String × Int) × Int)) (requester : String → Int → List ProcReq)
    (tc : Int) :
    resolveZeroQualifying counts requester tc st = some st := by
  rw [resolveZeroQualifying, hm]
  show resolveZeroStep counts requester tc st m.skill_sequence_cursor = some st
  rw [resolveZeroStep, if_neg (show ¬ m.skill_sequence_cursor ≤ 0 by omega), if_pos hres]

lemma guardedEntry_fresh (requester : String → Int → List ProcReq) (tc : Int)
    (actors : List Actor) (s q r : Int) (hs : 0 < s) (hq : 0 < q)
    (htally : tallyRapidResponse "Mikage" (requester "Mikage" s) = some (true, r)) :
    processGuardedEntry requester tc ⟨actors, [], []⟩ "Mikage" s q =
      if q < r then
        some ⟨actors, [("Mikage", s)],
          [.rejected "Mikage" "rapid_response" r q q .TURN_END s s tc
            "requested_count_exceeds_qualifying"]⟩
      else
        some ⟨applyMasteryProcEffects actors "Mikage" "rapid_response" r, [("Mikage", s)],
          [.proc "Mikage" "rapid_response" r q .TURN_END s s tc]⟩ := by
  have h2 : ¬ (s ≤ 0 ∨ q ≤ 0) := by omega
  by_cases hlt : q < r
  · rw [if_pos hlt]
    simp [processGuardedEntry, h2, htally, hlt, insertKey_nil]
  · rw [if_neg hlt]
    simp [processGuardedEntry, h2, htally, hlt, insertKey_nil]

lemma resolveGuarded_singleton_le (actors : List Actor) (requester : String → Int → List ProcReq)
    (tc s q r : Int) {m : Actor}
    (hm : actors.find? (fun a => a.name == "Mikage") = some m)
    (hcur : m.skill_sequence_cursor = s) (hs : 0 < s) (hq : 0 < q)
    (htally : tallyRapidResponse "Mikage" (requester "Mikage" s) = some (true, r))
    (hle : r ≤ q) :
    resolveGuarded [(("Mikage", s), q)] requester tc ⟨actors, [], []⟩ =
      some ⟨applyMasteryProcEffects actors "Mikage" "rapid_response" r, [("Mikage", s)],
        [.proc "Mikage" "rapid_response" r q .TURN_END s s tc]⟩ := by
  have hsort : sortCounts [(("Mikage", s), q)] = [(("Mikage", s), q)] := rfl
  rw [resolveGuarded, hsort]
  simp only [guardedLoop]
  rw [guardedEntry_fresh requester tc actors s q r hs hq htally, if_neg (not_lt.mpr hle)]
  obtain ⟨m', hm', hcur'⟩ :=
    applyMastery_find_cursor hm "Mikage" "rapid_response" r
  exact resolveZero_skip_resolved hm' (by omega) (by simp [hcur', hcur]) _ requester tc

lemma resolveGuarded_singleton_gt (actors : List Actor) (requester : String → Int → List ProcReq)
    (tc s q r : Int) {m : Actor}
    (hm : actors.find? (fun a => a.name == "Mikage") = some m)
    (hcur : m.skill_sequence_cursor = s) (hs : 0 < s) (hq : 0 < q)
    (htally : tallyRapidResponse "Mikage" (requester "Mikage" s) = some (true, r))
    (hgt : q < r) :
    resolveGuarded [(("Mikage", s), q)] requester tc ⟨actors, [], []⟩ =
      some ⟨actors, [("Mikage", s)],
        [.rejected "Mikage" "rapid_response" r q q .TURN_END s s tc
          "requested_count_exceeds_qualifying"]⟩ := by
  have hsort : sortCounts [(("Mikage", s), q)] = [(("Mikage", s), q)] := rfl
  rw [resolveGuarded, hsort]
  simp only [guardedLoop]
  rw [guardedEntry_fresh requester tc actors s q r hs hq htally, if_pos hgt]
  exact resolveZero_skip_resolved hm (by omega) (by simp [hcur]) _ requester tc

lemma resolveGuarded_zero_qualifying (actors : List Actor)
    (requester : String → Int → List ProcReq) (tc s r : Int) {m : Actor}
    (hm : actors.find? (fun a => a.name == "Mikage") = some m)
    (hcur : m.skill_sequence_cursor = s) (hs : 0 < s)
    (htally : tallyRapidResponse "Mikage" (requester "Mikage" s) = some (true, r)) :
    resolveGuarded [] requester tc ⟨actors, [], []⟩ =
      some ⟨actors, [("Mikage", s)],
        [.rejected "Mikage" "rapid_response" r 0 0 .TURN_END s s tc
          "no_qualifying_expirations"]⟩ := by
  rw [resolveGuarded]
  show resolveZeroQualifying [] requester tc ⟨actors, [], []⟩ = _
  rw [resolveZeroQualifying, hm]
  show resolveZeroStep [] requester tc ⟨actors, [], []⟩ m.skill_sequence_cursor = _
  rw [hcur, resolveZeroStep, if_neg (show ¬ s ≤ 0 by omega), if_neg (by simp),
    if_neg (by simp [countsGet]), htally]
  simp [insertKey_nil]

lemma resolveGuarded_already_resolved (actors : List Actor)
    (requester : String → Int → List ProcReq) (tc s q : Int) {m : Actor}
    (hm : actors.find? (fun a => a.name == "Mikage") = some m)
    (hcur : m.skill_sequence_cursor = s) (hs : 0 < s) :
    resolveGuarded [(("Mikage", s), q)] requester tc ⟨actors, [("Mikage", s)], []⟩ =
      some ⟨actors, [("Mikage", s)], []⟩ := by
  have hsort : sortCounts [(("Mikage", s), q)] = [(("Mikage", s), q)] := rfl
  rw [resolveGuarded, hsort]
  simp only [guardedLoop]
  have hentry : processGuardedEntry requester tc ⟨actors, [("Mikage", s)], []⟩ "Mikage" s q =
      some ⟨actors, [("Mikage", s)], []⟩ := by
    by_cases h0 : s ≤ 0 ∨ q ≤ 0
    · simp [processGuardedEntry, h0]
    · simp [processGuardedEntry, h0]
  rw [hentry]
  exact resolveZero_skip_resolved hm (by omega) (by simp [hcur]) _ requester tc

/-! ## C1 / C2: the guarded mastery-proc resolution claims -/

/-- A Mikage actor whose consumed-so-far skill step is 1, used by the
concrete resolver runs below. -/
def ceMikage : Actor := { name := "Mikage", speed := 100, skill_sequence_cursor := 1 }

/-- A request provider declaring one rapid_response proc with count 1 for
(Mikage, step 1). -/
def ceMikReq : String → Int → List ProcReq := fun h s =>
  if h = "Mikage" ∧ s = 1 then [⟨"Mikage", "rapid_response", 1⟩] else []

/-- C1 counterexample: with qualifying count Q = 2 and a declared request of
total count 1 (so requested ≠ Q), the resolver emits a MASTERY_PROC success
event — not the MASTERY_PROC_REJECTED the claim requires for any mismatch.
The code's guard is `requested_total > Q` (docstring "Option B"), not
`requested_total != Q`. -/
theorem mastery_guard_equality_counterexample :
    (1 : Int) ≠ 2 ∧
    (resolveGuarded [(("Mikage", 1), 2)] ceMikReq 1 ⟨[ceMikage], [], []⟩).map GState.events =
      some [.proc "Mikage" "rapid_response" 1 2 .TURN_END 1 1 1] := by
  constructor
  · decide
  · decide

/-- C1 (amended): at the guarded TURN_END resolution for a ("Mikage", step)
key (the resolver's current scope is Mikage's rapid_response), with
accumulated qualifying-expiration count Q: if a declared request exists with
requested total count *at most* Q (Q > 0), a MASTERY_PROC success event is
emitted carrying holder, mastery, count and the causal metadata
(qualifying_expiration_count = Q, resolution_phase = TURN_END,
resolution_step = S), and the mastery's deterministic effect (+10% of
TM_GATE to the holder's turn meter per count) is applied; if the requested
count *exceeds* Q, or Q = 0 at the holder's current step, a
MASTERY_PROC_REJECTED event is emitted with requested_count,
qualifying_count and a machine-readable reason, and no proc effect is
applied. -/
theorem mastery_proc_guarded_resolution (actors : List Actor)
    (requester : String → Int → List ProcReq) (tc s q r : Int) (m : Actor)
    (hm : actors.find? (fun a => a.name == "Mikage") = some m)
    (hcur : m.skill_sequence_cursor = s) (hs : 0 < s)
    (htally : tallyRapidResponse "Mikage" (requester "Mikage" s) = some (true, r)) :
    (0 < q → r ≤ q →
      resolveGuarded [(("Mikage", s), q)] requester tc ⟨actors, [], []⟩ =
        some ⟨applyMasteryProcEffects actors "Mikage" "rapid_response" r, [("Mikage", s)],
          [.proc "Mikage" "rapid_response" r q .TURN_END s s tc]⟩)
    ∧ (0 < q → q < r →
      resolveGuarded [(("Mikage", s), q)] requester tc ⟨actors, [], []⟩ =
        some ⟨actors, [("Mikage", s)],
          [.rejected "Mikage" "rapid_response" r q q .TURN_END s s tc
            "requested_count_exceeds_qualifying"]⟩)
    ∧ (resolveGuarded [] requester tc ⟨actors, [], []⟩ =
        some ⟨actors, [("Mikage", s)],
          [.rejected "Mikage" "rapid_response" r 0 0 .TURN_END s s tc
            "no_qualifying_expirations"]⟩)
    ∧ (∀ (l : List Actor) (j : Nat) (a : Actor) (c : Int), 0 < c →
        l.get? j = some a → (a.name == "Mikage") = true →
        (∀ k, k < j → ∀ b, l.get? k = some b → (b.name == "Mikage") = false) →
        (applyMasteryProcEffects l "Mikage" "rapid_response" c).get? j =
          some { a with turn_meter := a.turn_meter + TM_GATE * (1 / 10) * c }) := by
  refine ⟨?_, ?_, ?_, ?_⟩
  · intro hq hle
    exact resolveGuarded_singleton_le actors requester tc s q r hm hcur hs hq htally hle
  · intro hq hgt
    exact resolveGuarded_singleton_gt actors requester tc s q r hm hcur hs hq htally hgt
  · exact resolveGuarded_zero_qualifying actors requester tc s r hm hcur hs htally
  · intro l j a c hc hget hname hfirst
    have hget2 : l[j]? = some a := by rw [← List.get?_eq_getElem?]; exact hget
    rw [applyMasteryProcEffects, if_neg (by omega),
      if_pos (show pyStrip "Mikage" = "Mikage" ∧ pyStrip "rapid_response" = "rapid_response"
        from ⟨rfl, rfl⟩),
      findIdx?_first (p := fun x => x.name == "Mikage") hget hname hfirst]
    simp [updateAt_getElem?_self, hget2]

/-- Witness for C1: the amended theorem applied at the concrete run with one
qualifying expiration (Q = 1) and a declared request of count 1. -/
theorem mastery_proc_guarded_resolution_witness :
    resolveGuarded [(("Mikage", 1), 1)] ceMikReq 1 ⟨[ceMikage], [], []⟩ =
      some ⟨applyMasteryProcEffects [ceMikage] "Mikage" "rapid_response" 1, [("Mikage", 1)],
        [.proc "Mikage" "rapid_response" 1 1 .TURN_END 1 1 1]⟩ :=
  (mastery_proc_guarded_resolution [ceMikage] ceMikReq 1 1 1 1 ceMikage rfl rfl
      (by decide) rfl).1 (by decide) (le_refl 1)

/-- An actor named Alice, holder of a declared proc request the guarded
resolver never consults. -/
def ceAlice : Actor := { name := "Alice", speed := 100, skill_sequence_cursor := 1 }

/-- A request provider declaring a rapid_response proc for holder "Alice". -/
def ceAliceReq : String → Int → List ProcReq := fun _ _ =>
  [⟨"Alice", "rapid_response", 1⟩]

/-- C2 counterexample: holder "Alice" has a declared proc request and a
recorded qualifying-expiration count Q = 1 at its resolution boundary, yet
the resolver emits *zero* events for the pair and does not mark it resolved —
the first loop skips every holder other than "Mikage"
(`if holder_name != "Mikage": continue`), silently dropping the request. -/
theorem mastery_no_silent_drop_counterexample :
    ceAliceReq "Alice" 1 ≠ [] ∧
    resolveGuarded [(("Alice", 1), 1)] ceAliceReq 1 ⟨[ceAlice], [], []⟩ =
      some ⟨[ceAlice], [], []⟩ := by
  constructor
  · decide
  · rfl

/-- C2 (amended): for a ("Mikage", step) key with a declared rapid_response
request whose resolution boundary is reached — a recorded qualifying count
Q > 0, or Q = 0 at the holder's current consumed-so-far step — the guarded
resolver emits exactly one of MASTERY_PROC or MASTERY_PROC_REJECTED for the
pair (never zero, never both) and marks the key resolved; a key already
marked resolved is not evaluated again (no further event, state unchanged).
Holders other than "Mikage" are outside the resolver's current scope and are
not resolved. -/
theorem mastery_proc_exactly_once (actors : List Actor)
    (requester : String → Int → List ProcReq) (tc s q r : Int) (m : Actor)
    (hm : actors.find? (fun a => a.name == "Mikage") = some m)
    (hcur : m.skill_sequence_cursor = s) (hs : 0 < s)
    (htally : tallyRapidResponse "Mikage" (requester "Mikage" s) = some (true, r)) :
    (0 < q → ∃ st' : GState,
      resolveGuarded [(("Mikage", s), q)] requester tc ⟨actors, [], []⟩ = some st'
      ∧ st'.events.length = 1 ∧ ("Mikage", s) ∈ st'.resolved)
    ∧ (∃ st' : GState,
      resolveGuarded [] requester tc ⟨actors, [], []⟩ = some st'
      ∧ st'.events.length = 1 ∧ ("Mikage", s) ∈ st'.resolved)
    ∧ (∀ q' : Int,
      resolveGuarded [(("Mikage", s), q')] requester tc ⟨actors, [("Mikage", s)], []⟩ =
        some ⟨actors, [("Mikage", s)], []⟩) := by
  refine ⟨?_, ?_, ?_⟩
  · intro hq
    rcases le_or_lt r q with hle | hgt
    · exact ⟨_, resolveGuarded_singleton_le actors requester tc s q r hm hcur hs hq htally hle,
        rfl, by simp⟩
    · exact ⟨_, resolveGuarded_singleton_gt actors requester tc s q r hm hcur hs hq htally hgt,
        rfl, by simp⟩
  · exact ⟨_, resolveGuarded_zero_qualifying actors requester tc s r hm hcur hs htally,
      rfl, by simp⟩
  · intro q'
    exact resolveGuarded_already_resolved actors requester tc s q' hm hcur hs

/-- Witness for C2: the amended theorem applied at the concrete run with
Q = 1, plus the already-resolved re-run emitting nothing. -/
theorem mastery_proc_exactly_once_witness :
    (∃ st' : GState,
      resolveGuarded [(("Mikage", 1), 1)] ceMikReq 1 ⟨[ceMikage], [], []⟩ = some st'
      ∧ st'.events.length = 1 ∧ ("Mikage", 1) ∈ st'.resolved)
    ∧ resolveGuarded [(("Mikage", 1), 1)] ceMikReq 1 ⟨[ceMikage], [("Mikage", 1)], []⟩ =
      some ⟨[ceMikage], [("Mikage", 1)], []⟩ :=
  ⟨(mastery_proc_exactly_once [ceMikage] ceMikReq 1 1 1 1 ceMikage rfl rfl (by decide)
      rfl).1 (by decide),
    (mastery_proc_exactly_once [ceMikage] ceMikReq 1 1 1 1 ceMikage rfl rfl (by decide)
      rfl).2.2 1⟩

/-! ## Phase-preservation lemmas for step_tick -/

/-- The turn meters of an actor list, in order. -/
def metersOf (l : List Actor) : List ℚ := l.map Actor.turn_meter

lemma emitRaw_tick (s : Sink) (t : EType) (a : Option String) : (s.emitRaw t a).tick = s.tick :=
  rfl

lemma foldl_tick {β : Type} (f : Sink → β → Sink) (hf : ∀ s x, (f s x).tick = s.tick) :
    ∀ (l : List β) (s : Sink), (l.foldl f s).tick = s.tick := by
  intro l
  induction l with
  | nil => intro s; rfl
  | cons x xs ih => intro s; rw [List.foldl_cons, ih, hf]

lemma emitDurationChanged_tick (owner : Actor) (durBefore : List (String × Int)) (s : Sink) :
    (emitDurationChanged owner durBefore s).tick = s.tick := by
  rw [emitDurationChanged]
  apply foldl_tick
  intro s' fx
  split <;> rfl

lemma recordQual_tick (actors : List Actor) (fx : EffectInstance) (s : Sink) :
    (recordQualifyingExpiration actors fx s).tick = s.tick := by
  rw [recordQualifyingExpiration]
  split
  · rfl
  · split
    · rfl
    · cases actors.find? (fun a => a.name == fx.placed_by) with
      | none => rfl
      | some holder =>
        simp only []
        split <;> rfl

lemma expire_tick (iBest : Nat) (actors : List Actor) (durBefore : List (String × Int))
    (s : Sink) : (expireActiveEffectsTurnEnd iBest actors durBefore s).2.tick = s.tick := by
  rw [expireActiveEffectsTurnEnd]
  repeat' split
  any_goals rfl
  all_goals exact foldl_tick _ (fun s' fx => by rw [recordQual_tick, emitRaw_tick]) _ _

lemma mithrala_tick (iBest : Nat) (actors : List Actor) (s : Sink) :
    (mithralaPhase iBest actors s).2.tick = s.tick := by
  rw [mithralaPhase]
  repeat' split
  all_goals rfl

lemma turnEnd_tick (iBest : Nat) (actors : List Actor) (s : Sink) (tc : Int) :
    (turnEndPhase iBest actors s tc).2.tick = s.tick := by
  rw [turnEndPhase]
  simp only []
  rw [foldl_tick _ (fun s' x => by rw [emitRaw_tick])]
  split
  · exact emitDurationChanged_tick _ _ _
  · rw [expire_tick, emitDurationChanged_tick]

lemma poison_tick (iBest : Nat) (actors : List Actor) (s : Sink) (bestName : String) :
    (poisonPhase iBest actors s bestName).2.tick = s.tick := by
  rw [poisonPhase]
  split
  · exact (foldl_tick _ (fun s' x => emitRaw_tick s' _ _) _ _).trans (emitRaw_tick s _ _)
  · exact foldl_tick _ (fun s' x => emitRaw_tick s' _ _) _ _

lemma actPhase_winner (iBest : Nat) (actors : List Actor) (s : Sink)
    (hc : Option (List (String × Int))) (hp : Option (String → List (String × Int)))
    (r : HitResolver) : (actPhase iBest actors s hc hp r).winner = some iBest := rfl

lemma actPhase_tick (iBest : Nat) (actors : List Actor) (s : Sink)
    (hc : Option (List (String × Int))) (hp : Option (String → List (String × Int)))
    (r : HitResolver) : (actPhase iBest actors s hc hp r).sink.tick = s.tick := by
  refine (emitRaw_tick _ _ _).trans ?_
  refine (turnEnd_tick _ _ _ _).trans ?_
  refine (mithrala_tick _ _ _).trans ?_
  refine (poison_tick _ _ _ _).trans ?_
  rfl

/-! Meter preservation: every phase after the reset leaves every actor's
turn meter unchanged. -/

lemma updateAt_map_eq_at (g : α → β) (f : α → α) :
    ∀ (i : Nat) (l : List α), (∀ a, l.get? i = some a → g (f a) = g a) →
      (updateAt i f l).map g = l.map g := by
  intro i
  induction i with
  | zero =>
    intro l h
    cases l with
    | nil => rfl
    | cons a rest => simp [updateAt, h a rfl]
  | succ n ih =>
    intro l h
    cases l with
    | nil => rfl
    | cons a rest =>
      simp only [updateAt, List.map_cons, List.cons.injEq, true_and]
      exact ih rest (fun b hb => h b hb)

lemma map_updateAt_eq_set (g : α → β) (f : α → α) (c : β) (hf : ∀ a, g (f a) = c) :
    ∀ (i : Nat) (l : List α), (updateAt i f l).map g = (l.map g).set i c := by
  intro i
  induction i with
  | zero =>
    intro l
    cases l with
    | nil => rfl
    | cons a rest => simp [updateAt, hf]
  | succ n ih =>
    intro l
    cases l with
    | nil => rfl
    | cons a rest => simp [updateAt, ih]

lemma get?_set_self (c : β) : ∀ (i : Nat) (l : List β), i < l.length →
    (l.set i c).get? i = some c := by
  intro i
  induction i with
  | zero =>
    intro l hl
    cases l with
    | nil => simp at hl
    | cons a rest => rfl
  | succ n ih =>
    intro l hl
    cases l with
    | nil => simp at hl
    | cons a rest => simpa [List.set] using ih rest (by simpa using hl)

lemma get?_set_other (c : β) : ∀ (i j : Nat) (l : List β), j ≠ i →
    (l.set i c).get? j = l.get? j := by
  intro i
  induction i with
  | zero =>
    intro j l hj
    cases l with
    | nil => rfl
    | cons a rest =>
      cases j with
      | zero => exact absurd rfl hj
      | succ m => rfl
  | succ n ih =>
    intro j l hj
    cases l with
    | nil => rfl
    | cons a rest =>
      cases j with
      | zero => rfl
      | succ m => simpa [List.set] using ih m rest (fun h => hj (by omega))

lemma decActive_meter (tc : Int) (a : Actor) :
    (decrementActiveEffectDurationsTurnEnd tc a).1.turn_meter = a.turn_meter := by
  rw [decrementActiveEffectDurationsTurnEnd]
  split <;> rfl

lemma expire_meters (iBest : Nat) (actors : List Actor) (durBefore : List (String × Int))
    (s : Sink) : metersOf (expireActiveEffectsTurnEnd iBest actors durBefore s).1 =
      metersOf actors := by
  rw [expireActiveEffectsTurnEnd]
  split
  · rfl
  · split
    · rfl
    · exact updateAt_map_eq Actor.turn_meter
        (fun a =>
          { a with
            active_effects := (actors.getD iBest default).active_effects.filter
              fun fx => ¬ isExpiredInstance durBefore fx })
        (fun a => rfl) iBest actors

lemma updateAt_meters (f : Actor → Actor) (i : Nat) (l : List Actor)
    (hf : ∀ a, (f a).turn_meter = a.turn_meter) : metersOf (updateAt i f l) = metersOf l :=
  updateAt_map_eq Actor.turn_meter f hf i l

lemma updateAt_meters_at (f : Actor → Actor) (i : Nat) (l : List Actor)
    (hf : ∀ a, l.get? i = some a → (f a).turn_meter = a.turn_meter) :
    metersOf (updateAt i f l) = metersOf l :=
  updateAt_map_eq_at Actor.turn_meter f i l hf

lemma getD_of_get? {l : List α} {i : Nat} {a : α} (d : α) (h : l.get? i = some a) :
    l.getD i d = a := by
  induction l generalizing i with
  | nil => simp at h
  | cons x xs ih =>
    cases i with
    | zero =>
      simp only [List.get?] at h
      cases h
      rfl
    | succ n =>
      simp only [List.get?] at h
      simpa [List.getD_cons_succ] using ih h

lemma bossShieldReset_meter (a : Actor) : (bossShieldReset a).turn_meter = a.turn_meter := by
  rw [bossShieldReset]
  repeat' split
  all_goals rfl

lemma map_meters_stamp (c : Int) (l : List Actor) :
    metersOf (l.map fun a => { a with current_turn_counter := c }) = metersOf l := by
  rw [metersOf, metersOf, List.map_map]
  rfl

lemma updateAt_meters₂ (f g : Actor → Actor) (i j : Nat) (l : List Actor)
    (hf : ∀ a, (f a).turn_meter = a.turn_meter) (hg : ∀ a, (g a).turn_meter = a.turn_meter) :
    metersOf (updateAt i f (updateAt j g l)) = metersOf l :=
  (updateAt_meters f i _ hf).trans (updateAt_meters g j l hg)

lemma turnEnd_meters (iBest : Nat) (actors : List Actor) (s : Sink) (tc : Int) :
    metersOf (turnEndPhase iBest actors s tc).1 = metersOf actors := by
  refine (updateAt_meters ?_ ?_ ?_ ?_).trans ?_
  · exact fun a => rfl
  · split
    · refine updateAt_meters_at ?_ ?_ ?_ ?_
      intro a ha
      rw [decActive_meter, getD_of_get? default ha]
    · refine (expire_meters _ _ _ _).trans ?_
      refine updateAt_meters_at ?_ ?_ ?_ ?_
      intro a ha
      rw [decActive_meter, getD_of_get? default ha]

lemma mithrala_meters (iBest : Nat) (actors : List Actor) (s : Sink) :
    metersOf (mithralaPhase iBest actors s).1 = metersOf actors := by
  rw [mithralaPhase]
  repeat' split
  all_goals first
    | rfl
    | (refine updateAt_meters ?_ ?_ ?_ ?_ <;> exact fun a => rfl)

lemma hitPhase_meters (iBest : Nat) (actors : List Actor) (tick : Nat)
    (hc : Option (List (String × Int))) (hp : Option (String → List (String × Int)))
    (r : HitResolver) (tc : Int) :
    metersOf (hitPhase iBest actors tick hc hp r tc) = metersOf actors := by
  rw [hitPhase.eq_def]
  split
  · rfl
  · rw [applyHitsToBoss.eq_def]
    repeat' split
    all_goals first
      | rfl
      | (refine updateAt_meters ?_ ?_ ?_ ?_ <;> exact fun a => rfl)
      | (refine updateAt_meters₂ ?_ ?_ ?_ ?_ ?_ ?_ ?_ <;> exact fun a => rfl)

lemma poison_meters (iBest : Nat) (actors : List Actor) (s : Sink) (bestName : String) :
    metersOf (poisonPhase iBest actors s bestName).1 = metersOf actors := by
  rw [poisonPhase]
  split
  · refine updateAt_meters₂ ?_ ?_ ?_ ?_ ?_ ?_ ?_ <;> exact fun a => rfl
  · refine updateAt_meters ?_ ?_ ?_ ?_
    exact fun a => rfl

lemma actPhase_meters (iBest : Nat) (actors : List Actor) (s : Sink)
    (hc : Option (List (String × Int))) (hp : Option (String → List (String × Int)))
    (r : HitResolver) :
    metersOf (actPhase iBest actors s hc hp r).actors = (metersOf actors).set iBest 0 := by
  refine (turnEnd_meters _ _ _ _).trans ?_
  refine (mithrala_meters _ _ _).trans ?_
  refine (hitPhase_meters _ _ _ _ _ _ _).trans ?_
  refine (poison_meters _ _ _ _).trans ?_
  refine (map_meters_stamp _ _).trans ?_
  refine (updateAt_meters _ _ _ (fun a => bossShieldReset_meter a)).trans ?_
  exact map_updateAt_eq_set Actor.turn_meter _ 0 (fun a => rfl) iBest actors

/-! ## step_tick unfolding lemmas -/

lemma stepTick_extra {actors : List Actor} {i0 : Nat} {a0 : Actor} {rest : List (Nat × Actor)}
    (h : extraCandidates actors = (i0, a0) :: rest) (s : Sink)
    (hc : Option (List (String × Int))) (hp : Option (String → List (String × Int)))
    (r : HitResolver) :
    stepTick actors s hc hp r =
      actPhase i0 (updateAt i0 (fun a => { a with extra_turns := a.extra_turns - 1 }) actors)
        (if s.tick = 0 then (s.startTick).emitRaw .TICK_START none else s) hc hp r := by
  rw [stepTick.eq_def, h]

lemma stepTick_fill {actors : List Actor} (h : extraCandidates actors = []) (s : Sink)
    (hc : Option (List (String × Int))) (hp : Option (String → List (String × Int)))
    (r : HitResolver) :
    stepTick actors s hc hp r =
      match pyMax (readyIndexed (fillActors actors)) with
      | none =>
        ⟨none, fillActors actors,
          ((s.startTick).emitRaw .TICK_START none).emitRaw .FILL_COMPLETE none⟩
      | some iw =>
        actPhase iw.1 (fillActors actors)
          (((s.startTick).emitRaw .TICK_START none).emitRaw .FILL_COMPLETE none) hc hp r := by
  rw [stepTick.eq_def, h]

lemma mem_updateAt {f : α → α} :
    ∀ {i : Nat} {l : List α} {x : α}, x ∈ updateAt i f l → x ∈ l ∨ ∃ a, a ∈ l ∧ x = f a := by
  intro i
  induction i with
  | zero =>
    intro l x hx
    cases l with
    | nil => simp [updateAt] at hx
    | cons a rest =>
      rcases List.mem_cons.mp hx with rfl | hx
      · exact Or.inr ⟨a, List.mem_cons_self a rest, rfl⟩
      · exact Or.inl (List.mem_cons_of_mem a hx)
  | succ n ih =>
    intro l x hx
    cases l with
    | nil => simp [updateAt] at hx
    | cons a rest =>
      rcases List.mem_cons.mp hx with rfl | hx
      · exact Or.inl (List.mem_cons_self x rest)
      · rcases ih hx with h | ⟨b, hb, rfl⟩
        · exact Or.inl (List.mem_cons_of_mem a h)
        · exact Or.inr ⟨b, List.mem_cons_of_mem a hb, rfl⟩

/-! ## C10: extra turns discard the accumulated turn meter -/

/-- C10: when `step_tick` grants an extra turn (some actor has
`extra_turns > 0`), the chosen actor is the first such actor in list order,
no fill occurs, and that actor's turn meter ends at exactly 0 — whatever
meter it had accumulated before the extra turn is discarded, while every
other actor's meter is untouched. -/
theorem step_tick_extra_turn_discards_meter (actors : List Actor) (s : Sink)
    (hc : Option (List (String × Int))) (hp : Option (String → List (String × Int)))
    (r : HitResolver) (i0 : Nat) (a0 : Actor) (rest : List (Nat × Actor))
    (h : extraCandidates actors = (i0, a0) :: rest) :
    (stepTick actors s hc hp r).winner = some i0
    ∧ metersOf (stepTick actors s hc hp r).actors = (metersOf actors).set i0 0 := by
  rw [stepTick_extra h s hc hp r]
  refine ⟨actPhase_winner _ _ _ _ _ _, ?_⟩
  refine (actPhase_meters _ _ _ _ _ _).trans ?_
  have hm : metersOf (updateAt i0 (fun a => { a with extra_turns := a.extra_turns - 1 }) actors)
      = metersOf actors := updateAt_meters _ _ _ (fun a => rfl)
  rw [hm]

/-- Witness for C10: an actor with 700 accumulated turn meter and one extra
turn acts and comes out with meter 0; the other actor's meter is untouched. -/
theorem step_tick_extra_turn_discards_meter_witness :
    (stepTick [{ name := "A", speed := 100, turn_meter := 700, extra_turns := 1 },
      { name := "B", speed := 90, turn_meter := 500 }] Sink.init).winner = some 0
    ∧ metersOf (stepTick [{ name := "A", speed := 100, turn_meter := 700, extra_turns := 1 },
        { name := "B", speed := 90, turn_meter := 500 }] Sink.init).actors = [0, 500] := by
  have h := step_tick_extra_turn_discards_meter
    [{ name := "A", speed := 100, turn_meter := 700, extra_turns := 1 },
      { name := "B", speed := 90, turn_meter := 500 }]
    Sink.init none none (fun _ _ _ _ _ => []) 0
    { name := "A", speed := 100, turn_meter := 700, extra_turns := 1 } [] (by decide)
  exact ⟨h.1, h.2.trans (by decide)⟩

/-! ## C5: extra turns never advance the global clock -/

/-- C5: if some actor has `extra_turns > 0` when `step_tick` is called and
the log has at least one tick opened, the log's tick counter after the call
equals its value before the call; only when no tick was ever opened does an
extra turn open one (bringing the counter from 0 to 1). -/
theorem step_tick_extra_turn_clock_invariant (actors : List Actor) (s : Sink)
    (hc : Option (List (String × Int))) (hp : Option (String → List (String × Int)))
    (r : HitResolver) (h : extraCandidates actors ≠ []) :
    (1 ≤ s.tick → (stepTick actors s hc hp r).sink.tick = s.tick)
    ∧ (s.tick = 0 → (stepTick actors s hc hp r).sink.tick = 1) := by
  cases hex : extraCandidates actors with
  | nil => exact absurd hex h
  | cons ia rest =>
    obtain ⟨i0, a0⟩ := ia
    rw [stepTick_extra hex s hc hp r]
    constructor
    · intro htick
      rw [actPhase_tick]
      rw [if_neg (by omega)]
    · intro htick
      rw [actPhase_tick]
      rw [if_pos htick]
      simp [Sink.emitRaw, Sink.startTick, htick]

/-- Witness for C5: with one tick already opened (counter 1), granting an
extra turn and stepping leaves the counter at 1. -/
theorem step_tick_extra_turn_clock_invariant_witness :
    (stepTick [{ name := "A", speed := 100, extra_turns := 1 }]
      (Sink.startTick Sink.init)).sink.tick = (Sink.startTick Sink.init).tick :=
  (step_tick_extra_turn_clock_invariant
    [{ name := "A", speed := 100, extra_turns := 1 }] (Sink.startTick Sink.init)
    none none (fun _ _ _ _ _ => []) (by decide)).1 (by decide)

/-! ## Winner-selection machinery shared by C3 and C4 -/

lemma lt_length_of_get?_some {l : List α} {n : Nat} {a : α} (h : l.get? n = some a) :
    n < l.length := by
  by_contra hn
  rw [List.get?_eq_none.mpr (by omega)] at h
  cases h

lemma stepTick_fill_winner {actors : List Actor} {s : Sink}
    {hc : Option (List (String × Int))} {hp : Option (String → List (String × Int))}
    {r : HitResolver} {i : Nat} (hextra : extraCandidates actors = [])
    (hw : (stepTick actors s hc hp r).winner = some i) :
    ∃ w, pyMax (readyIndexed (fillActors actors)) = some (i, w) := by
  rw [stepTick_fill hextra s hc hp r] at hw
  cases hpy : pyMax (readyIndexed (fillActors actors)) with
  | none =>
    rw [hpy] at hw
    cases hw
  | some iw =>
    obtain ⟨i1, w⟩ := iw
    rw [hpy] at hw
    have hw2 : (some i1 : Option Nat) = some i := hw
    injection hw2 with hw2
    subst hw2
    exact ⟨w, rfl⟩

lemma actPhase_reset_meter (i : Nat) (A : List Actor) (S : Sink)
    (hc : Option (List (String × Int))) (hp : Option (String → List (String × Int)))
    (r : HitResolver) (hi : i < A.length) :
    ((actPhase i A S hc hp r).actors.get? i).map Actor.turn_meter = some 0 := by
  have hmet := actPhase_meters i A S hc hp r
  have h1 : ((actPhase i A S hc hp r).actors.get? i).map Actor.turn_meter
      = (metersOf (actPhase i A S hc hp r).actors).get? i := by
    rw [metersOf, List.get?_map]
  rw [h1, hmet]
  apply get?_set_self
  rw [metersOf, List.length_map]
  exact hi

lemma ready_winner_facts {actors : List Actor} {i : Nat} {w : Actor}
    (hpy : pyMax (readyIndexed (fillActors actors)) = some (i, w)) :
    (fillActors actors).get? i = some w ∧ TM_GATE ≤ w.turn_meter + EPS ∧
      ∀ (j : Nat) (v : Actor), (fillActors actors).get? j = some v →
        TM_GATE ≤ v.turn_meter + EPS → j ≠ i → keyLt (selKey (j, v)) (selKey (i, w)) := by
  obtain ⟨hmem, hmax⟩ := pyMax_spec hpy
  have h1 := List.mem_filter.mp hmem
  refine ⟨pyEnum_mem_iff.mp h1.1, by simpa [eligibleB] using h1.2, ?_⟩
  intro j v hjv helig hne
  have hjmem : (j, v) ∈ readyIndexed (fillActors actors) :=
    List.mem_filter.mpr ⟨pyEnum_mem_iff.mpr hjv, by simpa [eligibleB] using helig⟩
  have hnot := hmax (j, v) hjmem
  rcases keyLt_cases (selKey (j, v)) (selKey (i, w)) with hlt | hlt | heq2
  · exact hlt
  · exact absurd hlt hnot
  · exfalso
    have hji : -(j : Int) = -(i : Int) := congrArg (fun p => p.2.2) heq2
    exact hne (by omega)

lemma keyLt_sel_iff {j i : Nat} {v w : Actor} :
    keyLt (selKey (j, v)) (selKey (i, w)) ↔
      (v.turn_meter < w.turn_meter
        ∨ (v.turn_meter = w.turn_meter ∧ v.speed < w.speed)
        ∨ (v.turn_meter = w.turn_meter ∧ v.speed = w.speed ∧ i < j)) := by
  unfold keyLt selKey
  constructor
  · rintro (h | ⟨e, h | ⟨e2, h⟩⟩)
    · exact Or.inl h
    · exact Or.inr (Or.inl ⟨e, h⟩)
    · refine Or.inr (Or.inr ⟨e, e2, ?_⟩)
      simp only at h
      omega
  · rintro (h | ⟨e, h⟩ | ⟨e, e2, h⟩)
    · exact Or.inl h
    · exact Or.inr ⟨e, Or.inl h⟩
    · refine Or.inr ⟨e, Or.inr ⟨e2, ?_⟩⟩
      simp only
      omega

/-! ## C3: winner selection and tie-break -/

/-- C3: on a non-extra-turn call of `step_tick` where at least one actor is
eligible after the fill (`turn_meter + EPS >= TM_GATE`), the returned winner
is an eligible actor, and every other eligible actor loses to it by the
three-level tie-break: lower turn meter, or equal meter and lower speed, or
equal meter and speed and higher original list index. -/
theorem step_tick_winner_selection (actors : List Actor) (s : Sink)
    (hc : Option (List (String × Int))) (hp : Option (String → List (String × Int)))
    (r : HitResolver) (hextra : extraCandidates actors = [])
    (helig : ∃ a ∈ fillActors actors, TM_GATE ≤ a.turn_meter + EPS) :
    ∃ (i : Nat) (w : Actor),
      (stepTick actors s hc hp r).winner = some i
      ∧ (fillActors actors).get? i = some w
      ∧ TM_GATE ≤ w.turn_meter + EPS
      ∧ ∀ (j : Nat) (v : Actor), (fillActors actors).get? j = some v →
          TM_GATE ≤ v.turn_meter + EPS → j ≠ i →
          (v.turn_meter < w.turn_meter
            ∨ (v.turn_meter = w.turn_meter ∧ v.speed < w.speed)
            ∨ (v.turn_meter = w.turn_meter ∧ v.speed = w.speed ∧ i < j)) := by
  obtain ⟨a, ha, helig_a⟩ := helig
  obtain ⟨n, hn⟩ := List.mem_iff_get?.mp ha
  have hready : (n, a) ∈ readyIndexed (fillActors actors) :=
    List.mem_filter.mpr ⟨pyEnum_mem_iff.mpr hn, by simpa [eligibleB] using helig_a⟩
  obtain ⟨iw, hpy⟩ := pyMax_ne_nil (List.ne_nil_of_mem hready)
  have hpy2 : pyMax (readyIndexed (fillActors actors)) = some (iw.1, iw.2) := hpy
  obtain ⟨hget, heligw, hmax⟩ := ready_winner_facts hpy2
  refine ⟨iw.1, iw.2, ?_, hget, heligw,
    fun j v hjv he hne => keyLt_sel_iff.mp (hmax j v hjv he hne)⟩
  rw [stepTick_fill hextra s hc hp r, hpy]
  rfl

/-- Witness for C3: two actors, both filled, only the faster one past the
gate; the theorem applied there names it the winner. -/
theorem step_tick_winner_selection_witness :
    ∃ (i : Nat) (w : Actor),
      (stepTick [{ name := "A", speed := 340, turn_meter := 1200 },
        { name := "B", speed := 282, turn_meter := 1100 }] Sink.init).winner = some i
      ∧ (fillActors [{ name := "A", speed := 340, turn_meter := 1200 },
          { name := "B", speed := 282, turn_meter := 1100 }]).get? i = some w
      ∧ TM_GATE ≤ w.turn_meter + EPS
      ∧ ∀ (j : Nat) (v : Actor),
          (fillActors [{ name := "A", speed := 340, turn_meter := 1200 },
            { name := "B", speed := 282, turn_meter := 1100 }]).get? j = some v →
          TM_GATE ≤ v.turn_meter + EPS → j ≠ i →
          (v.turn_meter < w.turn_meter
            ∨ (v.turn_meter = w.turn_meter ∧ v.speed < w.speed)
            ∨ (v.turn_meter = w.turn_meter ∧ v.speed = w.speed ∧ i < j)) :=
  step_tick_winner_selection
    [{ name := "A", speed := 340, turn_meter := 1200 },
      { name := "B", speed := 282, turn_meter := 1100 }]
    Sink.init none none (fun _ _ _ _ _ => []) (by decide)
    (by
      rw [fillActors]
      simp only [List.map_cons, List.map_nil]
      refine ⟨_, List.mem_cons_self _ _, ?_⟩
      simp only [speed_multiplier_from_effects, List.foldl_nil]
      rw [TM_GATE, EPS]
      norm_num)

/-! ## C4: the gate check and the meter reset -/

/-- C4 counterexample: an actor owed an extra turn acts with turn meter 0,
although `0 + EPS < TM_GATE` — extra-turn calls of `step_tick` bypass the
gate check entirely, so "an actor never acts while turn_meter + EPS < GATE"
is false for extra-turn calls. -/
theorem step_tick_gate_bypass_counterexample :
    (stepTick [{ name := "A", speed := 100, extra_turns := 1 }] Sink.init).winner = some 0
    ∧ ¬ (TM_GATE ≤ ({ name := "A", speed := 100, extra_turns := 1 } : Actor).turn_meter + EPS) := by
  constructor
  · decide
  · rw [TM_GATE, EPS]
    norm_num

set_option maxHeartbeats 1000000 in
/-- C4 (amended): on calls of `step_tick` in which no actor holds an extra
turn, the actor that acts passes the gate (`turn_meter + EPS >= TM_GATE`
after the fill); on every call, the acting actor's turn meter is exactly 0
immediately after acting (overflow above the gate is discarded, not carried
forward).  Extra-turn calls skip the gate check. -/
theorem step_tick_gate_and_reset (actors : List Actor) (s : Sink)
    (hc : Option (List (String × Int))) (hp : Option (String → List (String × Int)))
    (r : HitResolver) (i : Nat)
    (hw : (stepTick actors s hc hp r).winner = some i) :
    (extraCandidates actors = [] →
      ∃ w, (fillActors actors).get? i = some w ∧ TM_GATE ≤ w.turn_meter + EPS)
    ∧ ((stepTick actors s hc hp r).actors.get? i).map Actor.turn_meter = some 0 := by
  cases hex : extraCandidates actors with
  | cons ia rest =>
    obtain ⟨i0, a0⟩ := ia
    constructor
    · intro h0
      exact absurd h0 (by simp)
    · rw [stepTick_extra hex s hc hp r] at hw ⊢
      rw [actPhase_winner] at hw
      injection hw with hw2
      subst hw2
      have hlt : i0 < actors.length := by
        have hmem := (List.mem_filter.mp (hex ▸ List.mem_cons_self (i0, a0) rest)).1
        exact lt_length_of_get?_some (pyEnum_mem_iff.mp (by simpa using hmem))
      exact actPhase_reset_meter i0 _ _ hc hp r (by rw [updateAt_length]; exact hlt)
  | nil =>
    obtain ⟨w, hpy⟩ := stepTick_fill_winner hex hw
    obtain ⟨hget, heligw, _⟩ := ready_winner_facts hpy
    refine ⟨fun _ => ⟨w, hget, heligw⟩, ?_⟩
    have hstep : stepTick actors s hc hp r =
        actPhase i (fillActors actors)
          (((s.startTick).emitRaw .TICK_START none).emitRaw .FILL_COMPLETE none) hc hp r := by
      rw [stepTick_fill hex s hc hp r, hpy]
    rw [hstep]
    exact actPhase_reset_meter i _ _ hc hp r (lt_length_of_get?_some hget)

/-- Witness for C4: the amended theorem applied to the extra-turn call of
`step_tick`, giving the exact-zero reset of the acting actor's turn meter. -/
theorem step_tick_gate_and_reset_witness :
    ((stepTick [{ name := "A", speed := 100, extra_turns := 1 }]
      Sink.init).actors.get? 0).map Actor.turn_meter = some 0 :=
  (step_tick_gate_and_reset [{ name := "A", speed := 100, extra_turns := 1 }] Sink.init
    none none (fun _ _ _ _ _ => []) 0 (by decide)).2

/-! ## C9: hit merging, boss-shield floor, and the boss-turn hit skip -/

lemma lookupD_nil (k : String) (d : Int) : lookupD [] k d = d := rfl

lemma lookupD_cons (k0 : String) (v : Int) (l : List (String × Int)) (k : String) (d : Int) :
    lookupD ((k0, v) :: l) k d = if k0 = k then v else lookupD l k d := by
  by_cases h : k0 = k
  · rw [if_pos h]
    simp [lookupD, List.find?_cons, h]
  · rw [if_neg h]
    simp [lookupD, List.find?_cons, h]

lemma lookupD_setKey_self (k : String) (v : Int) (d : Int) :
    ∀ l, lookupD (setKey k v l) k d = v := by
  intro l
  induction l with
  | nil => simp [setKey, lookupD_cons]
  | cons kv rest ih =>
    rw [setKey]
    by_cases h : kv.1 = k
    · rw [if_pos (by simp [h])]
      simp [lookupD_cons]
    · rw [if_neg (by simp [h])]
      obtain ⟨k1, v1⟩ := kv
      rw [lookupD_cons, if_neg h]
      exact ih

lemma lookupD_setKey_other (k k0 : String) (v : Int) (d : Int) (hne : k0 ≠ k) :
    ∀ l, lookupD (setKey k0 v l) k d = lookupD l k d := by
  intro l
  induction l with
  | nil => simp [setKey, lookupD_cons, lookupD_nil, hne]
  | cons kv rest ih =>
    rw [setKey]
    obtain ⟨k1, v1⟩ := kv
    by_cases h : k1 = k0
    · rw [if_pos (by simp [h])]
      rw [lookupD_cons, lookupD_cons, if_neg hne, h, if_neg hne]
    · rw [if_neg (by simp [h])]
      rw [lookupD_cons, lookupD_cons]
      by_cases h2 : k1 = k
      · rw [if_pos h2, if_pos h2]
      · rw [if_neg h2, if_neg h2]
        exact ih

lemma lookupD_not_mem (k : String) (d : Int) :
    ∀ {l : List (String × Int)}, k ∉ l.map Prod.fst → lookupD l k d = d := by
  intro l
  induction l with
  | nil => intro _; rfl
  | cons kv rest ih =>
    intro h
    obtain ⟨k1, v1⟩ := kv
    rw [List.map_cons] at h
    have h1 : ¬ (k1 = k) := by
      intro he
      subst he
      exact h (List.mem_cons_self _ _)
    rw [lookupD_cons, if_neg h1]
    exact ih fun hm => h (List.mem_cons_of_mem _ hm)

/-- Additivity of the hit merge of `step_tick` (source lines 1966-1976): for
a resolver output whose keys are distinct, each key of the merged map holds
the sum of the base and extra counts. -/
lemma lookupD_mergeHits :
    ∀ (extra base : List (String × Int)), (extra.map Prod.fst).Nodup →
      ∀ k, lookupD (mergeHits base extra) k 0 = lookupD base k 0 + lookupD extra k 0 := by
  intro extra
  induction extra with
  | nil =>
    intro base _ k
    simp [mergeHits, lookupD_nil]
  | cons kv rest ih =>
    intro base hnd k
    obtain ⟨k0, v0⟩ := kv
    have hnd2 : (rest.map Prod.fst).Nodup := (List.nodup_cons.mp (by simpa using hnd)).2
    have hk0 : k0 ∉ rest.map Prod.fst := (List.nodup_cons.mp (by simpa using hnd)).1
    have hstep : mergeHits base ((k0, v0) :: rest)
        = mergeHits (if v0 = 0 then base else setKey k0 (lookupD base k0 0 + v0) base) rest := rfl
    rw [hstep, ih _ hnd2 k, lookupD_cons]
    by_cases hk : k0 = k
    · subst hk
      rw [if_pos rfl, lookupD_not_mem k0 0 hk0]
      by_cases hv : v0 = 0
      · rw [if_pos hv, hv]
      · rw [if_neg hv, lookupD_setKey_self]
        omega
    · rw [if_neg hk]
      by_cases hv : v0 = 0
      · rw [if_pos hv]
      · rw [if_neg hv, lookupD_setKey_other k k0 _ _ hk]

lemma mem_ite_updateAt {c : Prop} [Decidable c] {i : Nat} {g : α → α} {l : List α} {a : α}
    (ha : a ∈ (if c then updateAt i g l else l)) : a ∈ updateAt i g l ∨ a ∈ l := by
  by_cases h : c
  · rw [if_pos h] at ha
    exact Or.inl ha
  · rw [if_neg h] at ha
    exact Or.inr ha

/-- The boss-shield floor of `step_tick` (source lines 1977-1986): every
actor coming out of the shield application either kept its input state or has
a shield clamped at `max 0 _`, hence never below 0. -/
lemma applyHitsToBoss_shield_floor (actors : List Actor) (merged : List (String × Int)) :
    ∀ a ∈ applyHitsToBoss actors merged, 0 ≤ a.shield ∨ a ∈ actors := by
  intro a ha
  rw [applyHitsToBoss.eq_def] at ha
  revert ha
  cases hidx : actors.findIdx? (fun x => x.is_boss) with
  | none => exact fun ha => Or.inr ha
  | some bIdx =>
    intro ha
    have ha1 : a ∈ (if 0 < lookupD merged "REFLECT" 0 then
        updateAt bIdx
          (fun b => { b with shield := max 0 (b.shield - lookupD merged "REFLECT" 0) })
          (if 0 < sumNonReflect merged then
            updateAt bIdx
              (fun b => { b with shield := max 0 (b.shield - sumNonReflect merged) }) actors
          else actors)
      else (if 0 < sumNonReflect merged then
            updateAt bIdx
              (fun b => { b with shield := max 0 (b.shield - sumNonReflect merged) }) actors
          else actors)) := ha
    have hA1 : ∀ x : Actor, x ∈ (if 0 < sumNonReflect merged then
          updateAt bIdx
            (fun b => { b with shield := max 0 (b.shield - sumNonReflect merged) }) actors
        else actors) → 0 ≤ x.shield ∨ x ∈ actors := by
      intro x hx
      rcases mem_ite_updateAt hx with h1 | h1
      · rcases mem_updateAt h1 with h2 | ⟨b, _, rfl⟩
        · exact Or.inr h2
        · exact Or.inl (le_max_left 0 _)
      · exact Or.inr h1
    rcases mem_ite_updateAt ha1 with h1 | h1
    · rcases mem_updateAt h1 with h2 | ⟨b, _, rfl⟩
      · exact hA1 a h2
      · exact Or.inl (le_max_left 0 _)
    · exact hA1 a h1

lemma applyHitsToBoss_nil (actors : List Actor) : applyHitsToBoss actors [] = actors := by
  rw [applyHitsToBoss.eq_def]
  cases hidx : actors.findIdx? (fun x => x.is_boss) with
  | none => rfl
  | some bIdx => simp [sumNonReflect, lookupD]

/-- The boss-turn guard of `step_tick` (source lines 1943-1952): when the
winner is the boss and the base hits come from `hit_provider`, the base map
is cleared, so with no engine-owned extra contributors the whole hit phase
leaves every actor untouched. -/
lemma hitPhase_boss_provider {iBest : Nat} {actors : List Actor} {tick : Nat}
    {hc : Option (List (String × Int))} {f : String → List (String × Int)} {tc : Int}
    (hboss : (actors.getD iBest default).is_boss = true) :
    hitPhase iBest actors tick hc (some f) (fun _ _ _ _ _ => []) tc = actors := by
  have h : currentHitsForStep iBest actors hc (some f) = some [] := by
    simp only [currentHitsForStep]
    rw [if_pos hboss]
  simp only [hitPhase, h]
  simpa using applyHitsToBoss_nil actors

/-- C9 (amended): the hit merge of `step_tick` is additive per key (for a
resolver output with distinct keys), the boss shield application floors at 0
(an actor leaving the shield phase either is unchanged or has a non-negative
shield), and when the winner is the boss the `hit_provider` base hits are
cleared, so with no engine-owned extra contributors the hit phase changes no
actor.  The skip is NOT entire: `hit_counts_by_actor` base hits and resolver
extras still reach the shield on a boss turn (see the counterexample). -/
theorem hit_merge_floor_and_boss_guard
    (base extra : List (String × Int)) (k : String)
    (hnodup : (extra.map Prod.fst).Nodup)
    (actors : List Actor) (merged : List (String × Int)) (iBest tick : Nat)
    (hc : Option (List (String × Int))) (f : String → List (String × Int)) (tc : Int)
    (hboss : (actors.getD iBest default).is_boss = true) :
    lookupD (mergeHits base extra) k 0 = lookupD base k 0 + lookupD extra k 0
    ∧ (∀ a ∈ applyHitsToBoss actors merged, 0 ≤ a.shield ∨ a ∈ actors)
    ∧ hitPhase iBest actors tick hc (some f) (fun _ _ _ _ _ => []) tc = actors :=
  ⟨lookupD_mergeHits extra base hnodup k,
   applyHitsToBoss_shield_floor actors merged,
   hitPhase_boss_provider hboss⟩

/-- Witness for C9: merging base `{A: 1}` with extra `{B: 2}` keeps `A` at
1; a 5-shield boss taking 2 merged hits leaves every actor unchanged-or-
non-negative; a boss turn with provider-supplied hits and no extra
contributors leaves the actor list untouched. -/
theorem hit_merge_floor_and_boss_guard_witness :
    (([("B", (2 : Int))].map Prod.fst).Nodup
      ∧ (([{ name := "Boss", speed := 100, shield := 5, is_boss := true }] :
            List Actor).getD 0 default).is_boss = true)
    ∧ (lookupD (mergeHits [("A", 1)] [("B", 2)]) "A" 0
        = lookupD [("A", (1 : Int))] "A" 0 + lookupD [("B", (2 : Int))] "A" 0
      ∧ (∀ a ∈ applyHitsToBoss
            [{ name := "Boss", speed := 100, shield := 5, is_boss := true }] [("A", 2)],
          0 ≤ a.shield
            ∨ a ∈ ([{ name := "Boss", speed := 100, shield := 5, is_boss := true }] :
                List Actor))
      ∧ hitPhase 0 [{ name := "Boss", speed := 100, shield := 5, is_boss := true }] 0 none
          (some fun _ => [("A", 3)]) (fun _ _ _ _ _ => []) 0
        = [{ name := "Boss", speed := 100, shield := 5, is_boss := true }]) :=
  ⟨⟨by decide, by decide⟩,
   hit_merge_floor_and_boss_guard [("A", 1)] [("B", 2)] "A" (by decide)
     [{ name := "Boss", speed := 100, shield := 5, is_boss := true }] [("A", 2)] 0 0 none
     (fun _ => [("A", 3)]) 0 (by decide)⟩

/-- C9 counterexample to the claim's "skipped entirely when the winner is the
boss": a boss winner (acting on an extra turn) with base hits supplied via
`hit_counts_by_actor` (no `hit_provider`) still has those hits applied to its
own shield, which drops from 5 to 3 during its own turn. -/
theorem boss_turn_hit_skip_counterexample :
    (stepTick [{ name := "Boss", speed := 100, shield := 5, is_boss := true, extra_turns := 1 }]
        Sink.init (some [("Boss", 2)]) none).winner = some 0
    ∧ ((stepTick [{ name := "Boss", speed := 100, shield := 5, is_boss := true, extra_turns := 1 }]
        Sink.init (some [("Boss", 2)]) none).actors.get? 0).map Actor.shield = some 3 := by
  decide

end RSL
